import Mathlib

/-
  Verification development for the go-language-server/jsonrpc2 repository.

  The Go sources are shallowly embedded: each Lean definition below is a
  direct translation of the Go function named in its doc comment.  JSON
  documents are modelled at the parsed-value level (`JValue`), so the
  stdlib-compatible `encoding/json` unmarshalling semantics used by the
  repository's JSON libraries (segmentio/encoding/json, goccy/go-json,
  both drop-in replacements for encoding/json) are modelled explicitly:
  a JSON null unmarshals into a non-pointer target as a no-op, a number
  literal with a fractional part or exponent fails to unmarshal into an
  int64 target, and out-of-range numbers fail.
-/

set_option maxHeartbeats 1000000

namespace JsonRpc2

/-- Parsed JSON value.  `num i frac`: a number literal whose integral value
is `i`; `frac = true` records that the literal carried a fractional part or
exponent (e.g. `1.5`), which `encoding/json` refuses to unmarshal into an
integer target. -/
inductive JValue where
  | null
  | bool (b : Bool)
  | num (i : Int) (frac : Bool)
  | str (s : String)
  | arr (elems : List JValue)
  | obj (fields : List (String × JValue))

/-- Smallest Go int64 value. -/
def int64Lo : Int := -(2 ^ 63)

/-- Largest Go int64 value. -/
def int64Hi : Int := 2 ^ 63 - 1

/-- Semantics of `json.Unmarshal(data, &x)` for an `int64` target `x`
holding `cur` (encoding/json semantics, shared by the segmentio library
used in src/wire.go): null is a no-op, an integral in-range number is
stored, anything else is an error. -/
def goUnmarshalInt64 (v : JValue) (cur : Int) : Except Unit Int :=
  match v with
  | .null => .ok cur
  | .num i frac =>
      if frac then .error ()
      else if i < int64Lo ∨ int64Hi < i then .error ()
      else .ok i
  | _ => .error ()

/-- Semantics of `json.Unmarshal(data, &s)` for a `string` target holding
`cur`: null is a no-op, a JSON string is stored, anything else errors. -/
def goUnmarshalStr (v : JValue) (cur : String) : Except Unit String :=
  match v with
  | .null => .ok cur
  | .str s => .ok s
  | _ => .error ()

/-- Request identifier, from src/wire.go: `type ID struct {name string;
number int64}`. -/
structure ID where
  name : String
  number : Int
deriving DecidableEq, Repr

/-- NewNumberID (src/wire.go:105). -/
def NewNumberID (v : Int) : ID := { name := "", number := v }

/-- NewStringID (src/wire.go:108). -/
def NewStringID (v : String) : ID := { name := v, number := 0 }

/-- The default-constructed (zero) identifier `ID{}`. -/
def defaultID : ID := { name := "", number := 0 }

/-- ID.MarshalJSON (src/wire.go:129-134): marshal the name when it is
non-empty, otherwise marshal the number. -/
def ID.marshalJSON (id : ID) : JValue :=
  if id.name ≠ "" then .str id.name else .num id.number false

/-- ID.UnmarshalJSON (src/wire.go:137-143): reset to the zero ID, try to
unmarshal an int64 into `number`; on failure unmarshal a string into
`name`. -/
def ID.unmarshalJSON (v : JValue) : Except Unit ID :=
  match goUnmarshalInt64 v 0 with
  | .ok n => .ok { name := "", number := n }
  | .error _ =>
      match goUnmarshalStr v "" with
      | .ok s => .ok { name := s, number := 0 }
      | .error _ => .error ()

/-- JSON-RPC error object, from src/errors.go: `type Error struct {Code
Code; Message string; Data *json.RawMessage}`. -/
structure ErrorObj where
  code : Int
  message : String
  data : Option JValue

/-- Decode semantics of a `*json.RawMessage` struct field: a JSON null
sets the pointer to nil, any other value is stored verbatim. -/
def rawField (v : JValue) : Option JValue :=
  match v with
  | .null => none
  | w => some w

/-- Zero value of the Error struct. -/
def zeroErrorObj : ErrorObj := { code := 0, message := "", data := none }

/-- One step of the stdlib-compatible struct decoder: apply one JSON
object member to the accumulated struct value, failing if the member's
value does not fit its field. -/
def foldFields {α : Type} (step : α → String × JValue → Except Unit α) :
    List (String × JValue) → α → Except Unit α
  | [], a => .ok a
  | f :: rest, a =>
      match step a f with
      | .error e => .error e
      | .ok a2 => foldFields step rest a2

/-- Field decoding for the Error struct (tags `code`, `message`,
`data,omitempty` in src/errors.go); unknown members are ignored. -/
def errSetField (e : ErrorObj) : String × JValue → Except Unit ErrorObj
  | (k, v) =>
    if k = "code" then (goUnmarshalInt64 v e.code).map fun i => { e with code := i }
    else if k = "message" then (goUnmarshalStr v e.message).map fun s => { e with message := s }
    else if k = "data" then .ok { e with data := rawField v }
    else .ok e

/-- Unmarshal a JSON value into the Error struct. -/
def unmarshalErrorObj (v : JValue) : Except Unit ErrorObj :=
  match v with
  | .null => .ok zeroErrorObj
  | .obj fields => foldFields errSetField fields zeroErrorObj
  | _ => .error ()

/-- The `combined` envelope struct of src/wire.go:178-185, holding all the
fields of both requests and responses. -/
structure Combined where
  id : Option ID
  method : String
  params : Option JValue
  result : Option JValue
  err : Option ErrorObj

/-- Zero value of `combined`. -/
def zeroCombined : Combined :=
  { id := none, method := "", params := none, result := none, err := none }

/-- version.UnmarshalJSON (src/wire.go:77-86): the value must unmarshal as
a string equal to "2.0"; a JSON null leaves the inner string empty, which
then fails the comparison. -/
def versionCheck (v : JValue) : Except Unit Unit :=
  match goUnmarshalStr v "" with
  | .error _ => .error ()
  | .ok s => if s = "2.0" then .ok () else .error ()

/-- Field decoding for `combined` (json tags in src/wire.go:178-185):
`jsonrpc` runs the version check, `id` and `error` are pointer fields
(null clears them, otherwise their UnmarshalJSON runs), `method` is a
plain string, `params`/`result` are raw-message pointers.  Unknown
members are ignored. -/
def combinedSetField (c : Combined) : String × JValue → Except Unit Combined
  | (k, v) =>
    if k = "jsonrpc" then (versionCheck v).map fun _ => c
    else if k = "id" then
      match v with
      | .null => .ok { c with id := none }
      | w => (ID.unmarshalJSON w).map fun i => { c with id := some i }
    else if k = "method" then (goUnmarshalStr v c.method).map fun s => { c with method := s }
    else if k = "params" then .ok { c with params := rawField v }
    else if k = "result" then .ok { c with result := rawField v }
    else if k = "error" then
      match v with
      | .null => .ok { c with err := none }
      | w => (unmarshalErrorObj w).map fun e => { c with err := some e }
    else .ok c

/-- Unmarshal a JSON value into `combined` (a JSON null into a struct is
a no-op, an object decodes member-wise, anything else errors). -/
def unmarshalCombined (v : JValue) : Except Unit Combined :=
  match v with
  | .null => .ok zeroCombined
  | .obj fields => foldFields combinedSetField fields zeroCombined
  | _ => .error ()

/-- The closed message variant of src/message.go: Call, Notification and
Response.  `params`/`result` hold the raw payload (`none` models a nil
raw message), a Response's `err` holds its wire error if any. -/
inductive Message where
  | call (method : String) (params : Option JValue) (id : ID)
  | notification (method : String) (params : Option JValue)
  | response (result : Option JValue) (err : Option ErrorObj) (id : ID)

/-- Failure modes of DecodeMessage: a wrapped json unmarshal failure, or
ErrInvalidRequest for a response without an identifier. -/
inductive DecodeErr where
  | unmarshalFailed
  | invalidRequest
deriving DecidableEq, Repr

/-- DecodeMessage (src/message_json.go:15-59): unmarshal into `combined`,
then classify by presence: no method means a response (requiring an id),
a method with no id is a notification, a method with an id is a call. -/
def DecodeMessage (v : JValue) : Except DecodeErr Message :=
  match unmarshalCombined v with
  | .error _ => .error .unmarshalFailed
  | .ok msg =>
      if msg.method = "" then
        match msg.id with
        | none => .error .invalidRequest
        | some i => .ok (.response msg.result msg.err i)
      else
        match msg.id with
        | none => .ok (.notification msg.method msg.params)
        | some i => .ok (.call msg.method msg.params i)

/-- Marshalling a `*json.RawMessage` that always points at the payload
slice (as Call/Notification/Response.MarshalJSON do): a nil raw message
marshals as JSON null, otherwise the raw bytes are emitted. -/
def rawOrNull (p : Option JValue) : JValue := p.getD .null

/-- Error.MarshalJSON shape (struct tags of src/errors.go): `code`,
`message`, and `data` only when non-nil. -/
def marshalErrorObj (e : ErrorObj) : JValue :=
  .obj ([("code", .num e.code false), ("message", .str e.message)] ++
    (match e.data with
     | none => []
     | some d => [("data", d)]))

/-- MarshalJSON of the three message variants (src/message.go:88-100,
253-263, 161-175): populate wireRequest/wireResponse and marshal it.
Member order follows the Go struct field order; `omitempty` drops the
nil ID pointer of a notification, and a response emits `result` exactly
when `toError` of its error is nil, `error` otherwise. -/
def Message.marshalJSON : Message → JValue
  | .call method params id =>
      .obj [("jsonrpc", .str "2.0"), ("method", .str method),
            ("params", rawOrNull params), ("id", id.marshalJSON)]
  | .notification method params =>
      .obj [("jsonrpc", .str "2.0"), ("method", .str method),
            ("params", rawOrNull params)]
  | .response result err id =>
      match err with
      | none => .obj [("jsonrpc", .str "2.0"), ("result", rawOrNull result),
                      ("id", id.marshalJSON)]
      | some e => .obj [("jsonrpc", .str "2.0"), ("error", marshalErrorObj e),
                        ("id", id.marshalJSON)]

/-- Modelled from the spec: `EncodeMessage` itself is not under src/ (only
its caller src/frame.go is); the spec says it "produces a single JSON
object by asking the message variant to populate a shared envelope", so
it dispatches to the variant MarshalJSON methods of src/message.go. -/
def EncodeMessage (m : Message) : JValue := m.marshalJSON

/-- An identifier literal as it appears in a wire envelope: an integer or
a string (the spec's envelope `id` is "integer or string"). -/
inductive IDLit where
  | num (i : Int)
  | str (s : String)
deriving DecidableEq, Repr

/-- Render an identifier literal as a JSON value. -/
def IDLit.render : IDLit → JValue
  | .num i => .num i false
  | .str s => .str s

/-- The ID struct an identifier literal decodes to. -/
def IDLit.toID : IDLit → ID
  | .num i => NewNumberID i
  | .str s => NewStringID s

/-- An integer identifier literal must fit in an int64. -/
def IDLit.inRange : IDLit → Prop
  | .num i => int64Lo ≤ i ∧ i ≤ int64Hi
  | .str _ => True

/-- A JSON-RPC wire envelope as the spec defines it: a single flat JSON
object with keys among jsonrpc, id, method, params, result, error (the
version tag, when present, is exactly "2.0"; the id is an integer or
string literal; errors are proper error objects). -/
structure Env where
  hasVersion : Bool
  id : Option IDLit
  method : Option String
  params : Option JValue
  result : Option JValue
  err : Option ErrorObj

/-- Render an optional member of a JSON object. -/
def optField (k : String) : Option JValue → List (String × JValue)
  | none => []
  | some v => [(k, v)]

/-- Render an envelope as the JSON object handed to DecodeMessage. -/
def Env.render (e : Env) : JValue :=
  .obj ((if e.hasVersion then [("jsonrpc", JValue.str "2.0")] else []) ++
    optField "id" (e.id.map IDLit.render) ++
    optField "method" (e.method.map .str) ++
    optField "params" e.params ++
    optField "result" e.result ++
    optField "error" (e.err.map marshalErrorObj))

/-- Numeric side conditions under which an envelope decodes: integer ids
and error codes fit in an int64. -/
def Env.WF (e : Env) : Prop :=
  (match e.id with
   | some l => l.inRange
   | none => True) ∧
  (match e.err with
   | some er => int64Lo ≤ er.code ∧ er.code ≤ int64Hi
   | none => True)

/-- Decoding a payload member: a stored JSON null reads back as an absent
raw message. -/
def normRaw : Option JValue → Option JValue
  | some .null => none
  | p => p

/-- Round-tripping an error object turns a stored JSON-null data blob
into an absent one. -/
def ErrorObj.norm (e : ErrorObj) : ErrorObj := { e with data := normRaw e.data }

/-- The envelope's method member counts as unset when absent or empty
(the Go `combined.Method` cannot distinguish the two). -/
def Env.methodUnset (e : Env) : Prop := e.method = none ∨ e.method = some ""

/-- Effect of the envelope's id member on the decoded `combined`. -/
def setIdOf (o : Option IDLit) (c : Combined) : Combined :=
  match o with
  | none => c
  | some l => { c with id := some l.toID }

/-- Effect of the envelope's method member on the decoded `combined`. -/
def setMethodOf (m : Option String) (c : Combined) : Combined :=
  match m with
  | none => c
  | some s => { c with method := s }

/-- Effect of the envelope's params member on the decoded `combined`. -/
def setParamsOf (p : Option JValue) (c : Combined) : Combined :=
  match p with
  | none => c
  | some v => { c with params := rawField v }

/-- Effect of the envelope's result member on the decoded `combined`. -/
def setResultOf (p : Option JValue) (c : Combined) : Combined :=
  match p with
  | none => c
  | some v => { c with result := rawField v }

/-- Effect of the envelope's error member on the decoded `combined`. -/
def setErrOf (o : Option ErrorObj) (c : Combined) : Combined :=
  match o with
  | none => c
  | some er => { c with err := some (ErrorObj.norm er) }

/-- The `combined` value a well-formed envelope decodes to. -/
def Env.decoded (e : Env) : Combined :=
  { id := e.id.map IDLit.toID
    method := e.method.getD ""
    params := normRaw e.params
    result := normRaw e.result
    err := e.err.map ErrorObj.norm }

/-- An ID value as produced by the constructors NewNumberID/NewStringID
(the spec's identifier is a discriminated integer-or-string): a number id
has an empty name and an int64-range number, a string id has a zero
number slot. -/
def IDWF (id : ID) : Prop :=
  (id.name = "" ∧ int64Lo ≤ id.number ∧ id.number ≤ int64Hi) ∨
  (id.name ≠ "" ∧ id.number = 0)

/-- A raw payload that is not the literal JSON null blob (the blob
`null` is emitted for a nil raw message, so it cannot round-trip). -/
def payloadWF : Option JValue → Prop
  | some .null => False
  | _ => True

/-- A wire-representable error object: int64-range code and a data blob
that is absent or not the literal null blob. -/
def ErrorObjWF (e : ErrorObj) : Prop :=
  int64Lo ≤ e.code ∧ e.code ≤ int64Hi ∧ payloadWF e.data

/-- A message that conforms to the spec's data model: non-empty method,
constructor-formed identifier, payloads that are not the literal null
blob, and a response carrying exactly one of result and error. -/
def MessageWF : Message → Prop
  | .call m p id => m ≠ "" ∧ payloadWF p ∧ IDWF id
  | .notification m p => m ≠ "" ∧ payloadWF p
  | .response r err id =>
      IDWF id ∧
      (match err with
       | some e => ErrorObjWF e ∧ r = none
       | none => payloadWF r)

/-- The whitespace predicate of strings.TrimSpace, restricted to ASCII
(header lines are ASCII). -/
def goIsSpace (c : Char) : Bool :=
  c == ' ' || c == '\t' || c == '\n' || c == '\r' || c == '\x0b' || c == '\x0c'

/-- strings.TrimSpace on a line of bytes. -/
def trimSpaceL (s : List Char) : List Char :=
  ((s.dropWhile goIsSpace).reverse.dropWhile goIsSpace).reverse

/-- Split a byte stream into its complete newline-terminated lines (each
including its terminating newline, as bufio.Reader.ReadString returns
them) and the unterminated tail. -/
def linesOf : List Char → List (List Char) × List Char
  | [] => ([], [])
  | c :: cs =>
      if c = '\n' then
        ([c] :: (linesOf cs).1, (linesOf cs).2)
      else
        match linesOf cs with
        | ([], t) => ([], c :: t)
        | (l :: ls, t) => ((c :: l) :: ls, t)

/-- strings.IndexRune(line, ':'). -/
def idxColon : List Char → Option Nat
  | [] => none
  | c :: cs =>
      if c = ':' then some 0
      else (idxColon cs).map (· + 1)

/-- Accumulate a run of decimal digits, failing on any other character
(the digit scan inside strconv.ParseInt for base 10). -/
def digitsToNatAux : List Char → Nat → Option Nat
  | [], acc => some acc
  | c :: cs, acc =>
      if '0' ≤ c ∧ c ≤ '9' then digitsToNatAux cs (acc * 10 + (c.toNat - 48))
      else none

/-- Sign and digit handling of strconv.ParseInt(s, 10, _): an optional
leading sign followed by at least one digit. -/
def parseIntDecRaw (s : List Char) : Option Int :=
  let sd : Bool × List Char :=
    match s with
    | '-' :: rest => (true, rest)
    | '+' :: rest => (false, rest)
    | other => (false, other)
  match sd.2 with
  | [] => none
  | _ => (digitsToNatAux sd.2 0).map fun n =>
      if sd.1 then -(n : Int) else (n : Int)

/-- strconv.ParseInt(value, 10, 32): parse then require the result to fit
in 32 bits (src/frame.go:213 uses bitSize 32 and treats a range failure
as a parse failure). -/
def parseIntDec32 (s : List Char) : Option Int :=
  match parseIntDecRaw s with
  | none => none
  | some v => if v < -(2 ^ 31) ∨ (2 ^ 31 - 1 : Int) < v then none else some v

/-- The bytes of the mandatory Content-Length header name. -/
def contentLengthKey : List Char :=
  ['C', 'o', 'n', 't', 'e', 'n', 't', '-', 'L', 'e', 'n', 'g', 't', 'h']

/-- Failure modes of headerReader.Read (src/frame.go:183-242). -/
inductive FrameErr where
  | eofInHeader
  | invalidHeaderLine
  | badContentLength
  | nonPositiveContentLength
  | missingContentLength
  | shortBody
deriving DecidableEq, Repr

/-- The header loop of headerReader.Read (src/frame.go:190-223): consume
lines until a blank line; a line without a colon is an error; a
Content-Length line must parse via ParseInt(·, 10, 32) and be positive;
unknown headers are ignored.  Returns the last Content-Length value and
the unconsumed lines. -/
def headerLoopLines : List (List Char) → Int → Except FrameErr (Int × List (List Char))
  | [], _ => .error .eofInHeader
  | line :: rest, len =>
      let t := trimSpaceL line
      if t = [] then .ok (len, rest)
      else
        match idxColon t with
        | none => .error .invalidHeaderLine
        | some k =>
            let name := t.take k
            let value := trimSpaceL (t.drop (k + 1))
            if name = contentLengthKey then
              match parseIntDec32 value with
              | none => .error .badContentLength
              | some v =>
                  if v ≤ 0 then .error .nonPositiveContentLength
                  else headerLoopLines rest v
            else headerLoopLines rest len

/-- headerReader.Read up to the body extraction (src/frame.go:183-235):
run the header loop over the stream's lines, require a Content-Length to
have been seen, then read exactly that many bytes of body (io.ReadFull),
returning the body and the unconsumed remainder of the stream.  (The
subsequent DecodeMessage call of src/frame.go:236 is applied to the
returned body.) -/
def headerRead (stream : List Char) : Except FrameErr (List Char × List Char) :=
  match headerLoopLines (linesOf stream).1 0 with
  | .error e => .error e
  | .ok (len, restLines) =>
      let rest := restLines.foldr (· ++ ·) (linesOf stream).2
      if len = 0 then .error .missingContentLength
      else if rest.length < len.toNat then .error .shortBody
      else .ok (rest.take len.toNat, rest.drop len.toNat)

/-- Render one header item as the line `name:value\r\n` (the parser strips
optional whitespace around the value, so this canonical spacing loses no
generality). -/
def lineOf (name value : List Char) : List Char :=
  name ++ ':' :: value ++ ['\r', '\n']

/-- The blank line ending the header section. -/
def blankLine : List Char := ['\r', '\n']

/-- Render a list of header items. -/
def renderHeaders (items : List (List Char × List Char)) : List Char :=
  items.foldr (fun it acc => lineOf it.1 it.2 ++ acc) []

/-- Value bytes whose first and last characters are not whitespace (so
TrimSpace leaves them unchanged). -/
def noSpaceEnds (value : List Char) : Bool :=
  value.head?.all (fun g => !goIsSpace g) && value.getLast?.all (fun g => !goIsSpace g)

/-- A well-formed header item: non-empty name containing neither a colon
nor whitespace, and a value with no newline and no surrounding
whitespace. -/
@[reducible] def WFHeader (name value : List Char) : Prop :=
  name ≠ [] ∧ (∀ c ∈ name, c ≠ ':' ∧ goIsSpace c = false) ∧
  '\n' ∉ value ∧ noSpaceEnds value = true

/-- A list of well-formed header items none of which is Content-Length. -/
@[reducible] def UnknownWF (items : List (List Char × List Char)) : Prop :=
  ∀ it ∈ items, WFHeader it.1 it.2 ∧ it.1 ≠ contentLengthKey

/-- Go error values as the connection engine of src/conn.go handles them:
wire errors (`*Error` with code and message), plain sentinel errors
(`errors.New`/`constErr`), and `fmt.Errorf("%w: ...")` wrap chains whose
recorded message is the full formatted text. -/
inductive GoErr where
  | wire (code : Int) (message : String)
  | text (s : String)
  | wrap (message : String) (inner : GoErr)
deriving DecidableEq, Repr

/-- The Error() string of a Go error value. -/
def GoErr.msg : GoErr → String
  | .wire _ m => m
  | .text s => s
  | .wrap m _ => m

/-- errors.Is over the wrap chains the engine builds: the target matches
the error itself or anything it wraps. -/
def GoErr.is : GoErr → GoErr → Bool
  | e, target =>
      decide (e = target) ||
        match e with
        | .wrap _ inner => inner.is target
        | _ => false

/-- Modelled from the spec: the sentinel error ErrNotHandled ("fall
through to the next stage or to MethodNotFound") is not under src/ (only
its uses in src/conn.go are). -/
def ErrNotHandled : GoErr := .text "JSON RPC not handled"

/-- Modelled from the spec: the sentinel error ErrAsyncResponse ("defer
reply") is not under src/ (only its uses in src/conn.go are). -/
def ErrAsyncResponse : GoErr := .text "JSON RPC async response"

/-- ErrInternal (src/errors.go:91) as a Go error value. -/
def ErrInternalGo : GoErr := .wire (-32603) "JSON-RPC internal error"

/-- The error a cancelled context's Err() returns. -/
def ErrContextCanceled : GoErr := .text "context canceled"

/-- fmt.Errorf("%w: <rest>", ErrInternal, ...): a wrap of ErrInternal
whose message is the sentinel text followed by the rest. -/
def wrapInternal (rest : String) : GoErr :=
  .wrap (ErrInternalGo.msg ++ ": " ++ rest) ErrInternalGo

/-- The %q rendering of a plain method name. -/
def goQuote (s : String) : String := "\"" ++ s ++ "\""

/-- Modelled from the spec: the final revision's Request message
("identifier (optional), method, params"; "a request with no identifier
is a notification; with an identifier it is a call") is not under src/
(src/conn.go is its caller). -/
structure EngRequest where
  id : ID
  method : String
  params : Option JValue

/-- Modelled from the spec: Request.IsCall, the validity predicate on the
identifier (a default identifier marks a notification). -/
def EngRequest.IsCall (r : EngRequest) : Bool := r.id != defaultID

/-- Modelled from the spec: the final revision's Response message
("identifier (required), and exactly one of result/error"); `result`
holds the raw result blob (JSON null for a nil Go value). -/
structure EngResponse where
  id : ID
  result : JValue
  err : Option GoErr

/-- NewResponse of the engine revision: marshal the result (nil marshals
as the JSON null blob) and attach the error. -/
def engNewResponse (id : ID) (result : Option JValue) (rerr : Option GoErr) :
    EngResponse :=
  { id := id, result := result.getD .null, err := rerr }

/-- Modelled from the spec: Int64ID, the integer identifier constructor
used by Connection.Request (src/conn.go:447). -/
def Int64ID (v : Int) : ID := NewNumberID v

/-- The incoming-request bookkeeping entry of src/conn.go:141-146.  The
two Bool flags record whether the entry's cancellable handling context
is already cancelled at the two points where the engine consults
handleCtx.Err(): in manageQueue (src/conn.go:298) and in deliverMessages
(src/conn.go:326). -/
structure Entry where
  req : EngRequest
  cancelAtQueue : Bool
  cancelAtDeliver : Bool

/-- Connection.response (src/conn.go:365-406): for a call, substitute an
InternalError naming the method when the handler produced neither result
nor error, build the Response, and write it (the Writer is modelled as
reliable here; a write failure would only change the returned error, not
the at-most-once discipline).  For a notification nothing is written:
a non-nil handler error or a non-nil result only produces an internal
error return (which the caller logs). -/
def connResponse (req : EngRequest) (result : Option JValue) (rerr : Option GoErr) :
    Option EngResponse × Option GoErr :=
  if req.IsCall then
    let rerr2 :=
      if result.isNone && rerr.isNone then
        some (wrapInternal (goQuote req.method ++ " produced no response"))
      else rerr
    (some (engNewResponse req.id result rerr2), none)
  else
    match rerr with
    | some re =>
        (none, some (wrapInternal (goQuote req.method ++ " notification failed: " ++
          GoErr.msg re)))
    | none =>
        match result with
        | some _ =>
            (none, some (wrapInternal (goQuote req.method ++ " produced unwanted response")))
        | none => (none, none)

/-- The incomings table (a Go map modelled as an association list with at
most one binding per key) together with the log of Response frames the
engine has written. -/
structure IncomingState where
  incomings : List (ID × Entry)
  writes : List EngResponse

/-- Go map lookup on the incomings table. -/
def lookupEntry (id : ID) : List (ID × Entry) → Option Entry
  | [] => none
  | (k, e) :: rest => if k = id then some e else lookupEntry id rest

/-- Go map delete on the incomings table. -/
def removeEntry (id : ID) : List (ID × Entry) → List (ID × Entry)
  | [] => []
  | (k, e) :: rest =>
      if k = id then removeEntry id rest else (k, e) :: removeEntry id rest

/-- Connection.Response (src/conn.go:483-494): look the id up in the
incomings table; when absent return nil doing nothing; otherwise remove
it and run the shared response path, collecting any written frame. -/
def ResponseOp (s : IncomingState) (id : ID) (result : Option JValue)
    (rerr : Option GoErr) : IncomingState × Option GoErr :=
  match lookupEntry id s.incomings with
  | none => (s, none)
  | some entry =>
      let s1 : IncomingState := { s with incomings := removeEntry id s.incomings }
      let wr := connResponse entry.req result rerr
      ({ s1 with writes := s1.writes ++ wr.1.toList }, wr.2)

/-- Connection.reply (src/conn.go:347-361): remove a finishing call from
the incomings table and run the shared response path (its error is only
logged). -/
def replyOp (s : IncomingState) (entry : Entry) (result : Option JValue)
    (rerr : Option GoErr) : IncomingState :=
  let s1 : IncomingState :=
    if entry.req.IsCall then { s with incomings := removeEntry entry.req.id s.incomings }
    else s
  let wr := connResponse entry.req result rerr
  { s1 with writes := s1.writes ++ wr.1.toList }

/-- Run a sequence of deferred Connection.Response calls. -/
def runResponses (s : IncomingState) :
    List (ID × Option JValue × Option GoErr) → IncomingState
  | [] => s
  | (id, r, e) :: ops => runResponses (ResponseOp s id r e).1 ops

/-- Number of Response frames written for a given id. -/
def framesFor (id : ID) (writes : List EngResponse) : Nat :=
  (writes.filter (fun w => w.id == id)).length

/-- The incomings table is keyed by the request's own id
(src/conn.go:238 registers `pending[msg.ID] = entry`). -/
@[reducible] def TableWF (l : List (ID × Entry)) : Prop := ∀ p ∈ l, (p.2).req.id = p.1

/-- A Preempter or Handler result: (result, error). -/
structure PreemptRes where
  result : Option JValue
  err : Option GoErr

/-- errors.Is on a possibly-nil error. -/
def errIs (rerr : Option GoErr) (target : GoErr) : Bool :=
  match rerr with
  | none => false
  | some e => e.is target

/-- The preempt step of manageQueue (src/conn.go:297-302): a cancelled
handling context short-circuits with its error, otherwise the Preempter
runs. -/
def preemptOutcome (P : EngRequest → PreemptRes) (e : Entry) :
    Option JValue × Option GoErr :=
  if e.cancelAtQueue then (none, some ErrContextCanceled)
  else ((P e.req).result, (P e.req).err)

/-- State of the manageQueue goroutine (src/conn.go:267-318): entries not
yet received from the reader, the internal queue, entries already sent on
toDeliver, and entries finalised at the preempt stage. -/
structure MQState where
  pendingIn : List Entry
  q : List Entry
  delivered : List Entry
  replied : List (Entry × Option JValue × Option GoErr)

/-- Classification of one received entry (src/conn.go:304-315):
ErrNotHandled enqueues it for the handler, ErrAsyncResponse drops it
(a later Respond completes it), anything else replies now. -/
def mqProcess (P : EngRequest → PreemptRes) (s : MQState) (e : Entry) : MQState :=
  let pr := preemptOutcome P e
  if errIs pr.2 ErrNotHandled then { s with q := s.q ++ [e] }
  else if errIs pr.2 ErrAsyncResponse then s
  else { s with replied := s.replied ++ [(e, pr.1, pr.2)] }

/-- One scheduling step of manageQueue.  With an empty queue the loop can
only block on the reader (src/conn.go:274-282); with input exhausted it
can only deliver; otherwise the select of src/conn.go:286-292 chooses
either enabled action, here decided by `pick`. -/
def mqStep (P : EngRequest → PreemptRes) (pick : Bool) (s : MQState) : MQState :=
  match s.pendingIn, s.q with
  | [], [] => s
  | e :: rest, [] => mqProcess P { s with pendingIn := rest } e
  | [], d :: qrest => { s with q := qrest, delivered := s.delivered ++ [d] }
  | e :: rest, d :: qrest =>
      if pick then mqProcess P { s with pendingIn := rest } e
      else { s with q := qrest, delivered := s.delivered ++ [d] }

/-- Run manageQueue under an explicit schedule of select choices. -/
def runMQ (P : EngRequest → PreemptRes) : List Bool → MQState → MQState
  | [], s => s
  | pick :: sched, s => runMQ P sched (mqStep P pick s)

/-- Whether the Preempter (or the cancellation short-circuit) classifies
an entry as not handled, i.e. destined for the main Handler. -/
def isNotHandledEntry (P : EngRequest → PreemptRes) (e : Entry) : Bool :=
  errIs (preemptOutcome P e).2 ErrNotHandled

/-- The entries on which deliverMessages actually invokes Handler.Handle
(src/conn.go:323-330): delivered entries whose handling context is not
already cancelled. -/
def handlerSeen (delivered : List Entry) : List Entry :=
  delivered.filter (fun e => !e.cancelAtDeliver)

/-- A message as the reader loop sees it. -/
inductive EngMessage where
  | req (r : EngRequest)
  | resp (m : EngResponse)

/-- One reader.Read outcome: a decoded message or a fatal read/framing
error. -/
inductive ReadEvent where
  | msg (m : EngMessage)
  | fail (e : GoErr)

/-- Whether a read event is a failure. -/
def ReadEvent.isFail : ReadEvent → Bool
  | .fail _ => true
  | .msg _ => false

/-- Connection state touched by the reader goroutine: the outgoing
correlation table (ids of pending outbound calls), the responses handed
to those calls' one-slot channels, the incomings table, the entries
forwarded to the queue, and the async error slot read by Wait/Close. -/
structure ConnState where
  outPending : List ID
  delivered : List (ID × EngResponse)
  inPending : List (ID × Entry)
  toQueue : List Entry
  asyncErr : Option GoErr

/-- async.setError (the helper of this repository's Dial/Serve file):
only the first error is kept. -/
def setErrFirst (cur : Option GoErr) (e : GoErr) : Option GoErr :=
  match cur with
  | none => some e
  | some c => some c

/-- Connection.incomingResponse (src/conn.go:252-263): look the response
id up in the outgoings table; if present remove it and hand the Response
to that call's channel, otherwise drop it. -/
def incomingResponseOp (s : ConnState) (msg : EngResponse) : ConnState :=
  if msg.id ∈ s.outPending then
    { s with outPending := s.outPending.erase msg.id,
             delivered := s.delivered ++ [(msg.id, msg)] }
  else s

/-- Connection.readIncoming (src/conn.go:208-250): process reads until
the stream fails; a Request gets a fresh (uncancelled) entry, is indexed
in the incomings table when it is a call, and is forwarded to the queue;
a Response is correlated; a read error only records the error via
async.setError and stops the loop. -/
def readIncoming (s : ConnState) : List ReadEvent → ConnState
  | [] => s
  | .fail e :: _ => { s with asyncErr := setErrFirst s.asyncErr e }
  | .msg (.req r) :: rest =>
      let entry : Entry := { req := r, cancelAtQueue := false, cancelAtDeliver := false }
      let s1 := if r.IsCall then { s with inPending := s.inPending ++ [(r.id, entry)] }
                else s
      readIncoming { s1 with toQueue := s1.toQueue ++ [entry] } rest
  | .msg (.resp m) :: rest => readIncoming (incomingResponseOp s m) rest

/-- The model of AsyncRequest (src/conn.go:68-73): the one-slot response
channel and the one-slot result box. -/
structure AsyncRequestM where
  id : ID
  responseBox : Option EngResponse
  resultBox : Option (Option GoErr × Option JValue)

/-- AsyncRequest.IsReady (src/conn.go:84-94): a non-blocking probe of the
result box only (the response channel is not consulted). -/
def IsReady (ar : AsyncRequestM) : Bool := ar.resultBox.isSome

/-- AsyncRequest.Await (src/conn.go:99-138) at a point where it would not
block: take the response if one has arrived (turning it into a result
and refilling the result box), else take the already-prepared result;
`none` models the caller blocking until its context fires.  The returned
value is the error Await reports. -/
def Await (ar : AsyncRequestM) : Option (Option GoErr × AsyncRequestM) :=
  match ar.responseBox with
  | some resp =>
      let r : Option GoErr × Option JValue :=
        match resp.err with
        | some e => (some e, none)
        | none => (none, some resp.result)
      some (r.1, { ar with responseBox := none, resultBox := some r })
  | none =>
      match ar.resultBox with
      | some r => some (r.1, { ar with resultBox := some r })
      | none => none

/-- The wrap `fmt.Errorf("failed to write: %w", err)` of Connection.write
(src/conn.go:414). -/
def wrapWriteErr (e : GoErr) : GoErr :=
  .wrap ("failed to write: " ++ GoErr.msg e) e

/-- Connection.Request when the stream write fails (src/conn.go:445-476):
allocate the next id, register the one-slot response channel in the
outgoings table, attempt the write; on failure synthesise
`NewResponse(id, nil, err)` and feed it through incomingResponse, which
removes the id from the table and delivers the response into the
request's own channel.  Returns the AsyncRequest and the table after
Request returns. -/
def RequestWriteFail (seq : Int) (outPending : List ID) (e : GoErr) :
    AsyncRequestM × List ID :=
  let id := Int64ID (seq + 1)
  let registered := outPending ++ [id]
  let resp := engNewResponse id none (some (wrapWriteErr e))
  if id ∈ registered then
    ({ id := id, responseBox := some resp, resultBox := none }, registered.erase id)
  else
    ({ id := id, responseBox := none, resultBox := none }, registered)

theorem goUnmarshalInt64_num_intEq (i : Int) (hlo : int64Lo ≤ i) (hhi : i ≤ int64Hi)
    (cur : Int) : goUnmarshalInt64 (.num i false) cur = .ok i := by
  simp [goUnmarshalInt64, not_lt.mpr hlo, not_lt.mpr hhi]

theorem idUnmarshal_num (i : Int) (hlo : int64Lo ≤ i) (hhi : i ≤ int64Hi) :
    ID.unmarshalJSON (.num i false) = .ok (NewNumberID i) := by
  simp [ID.unmarshalJSON, goUnmarshalInt64_num_intEq i hlo hhi, NewNumberID]

theorem idUnmarshal_str (s : String) :
    ID.unmarshalJSON (.str s) = .ok (NewStringID s) := by
  simp [ID.unmarshalJSON, goUnmarshalInt64, goUnmarshalStr, NewStringID]

theorem idUnmarshal_null : ID.unmarshalJSON .null = .ok defaultID := by
  simp [ID.unmarshalJSON, goUnmarshalInt64, defaultID]

/-- C6 counterexample: the claim says the default-constructed identifier
encodes as JSON null; src/wire.go:129-134 instead marshals its number
slot, producing the JSON number 0, which is not JSON null. -/
theorem c6_default_id_counterexample :
    ID.marshalJSON defaultID = JValue.num 0 false ∧
    ID.marshalJSON defaultID ≠ JValue.null := by
  refine ⟨rfl, ?_⟩
  intro h
  simp [ID.marshalJSON, defaultID] at h

/-- C6 amended: integer and string identifiers survive encode/decode; the
default identifier encodes as the JSON number 0 (not null) and decodes
back to the default identifier, and a JSON null also decodes back to the
default identifier. -/
theorem c6_id_roundtrip_amended (v : Int) (hlo : int64Lo ≤ v) (hhi : v ≤ int64Hi)
    (s : String) :
    ID.unmarshalJSON (ID.marshalJSON (NewNumberID v)) = .ok (NewNumberID v) ∧
    ID.unmarshalJSON (ID.marshalJSON (NewStringID s)) = .ok (NewStringID s) ∧
    ID.marshalJSON defaultID = JValue.num 0 false ∧
    ID.unmarshalJSON (JValue.num 0 false) = .ok defaultID ∧
    ID.unmarshalJSON JValue.null = .ok defaultID := by
  have h0 : ID.unmarshalJSON (JValue.num 0 false) = .ok (NewNumberID 0) :=
    idUnmarshal_num 0 (by norm_num [int64Lo]) (by norm_num [int64Hi])
  refine ⟨?_, ?_, rfl, by rw [h0]; rfl, idUnmarshal_null⟩
  · have : ID.marshalJSON (NewNumberID v) = JValue.num v false := by
      simp [ID.marshalJSON, NewNumberID]
    rw [this]
    exact idUnmarshal_num v hlo hhi
  · by_cases h : s = ""
    · subst h
      have : ID.marshalJSON (NewStringID "") = JValue.num 0 false := by
        simp [ID.marshalJSON, NewStringID]
      rw [this, h0]
      rfl
    · have : ID.marshalJSON (NewStringID s) = JValue.str s := by
        simp [ID.marshalJSON, NewStringID, h]
      rw [this]
      exact idUnmarshal_str s

/-- C6 witness: the amended round-trip evaluated at the repository's own
test identifiers 43 and "life". -/
theorem c6_id_roundtrip_amended_witness :
    ID.unmarshalJSON (ID.marshalJSON (NewNumberID 43)) = .ok (NewNumberID 43) ∧
    ID.unmarshalJSON (ID.marshalJSON (NewStringID "life")) = .ok (NewStringID "life") ∧
    ID.marshalJSON defaultID = JValue.num 0 false ∧
    ID.unmarshalJSON (JValue.num 0 false) = .ok defaultID ∧
    ID.unmarshalJSON JValue.null = .ok defaultID :=
  c6_id_roundtrip_amended 43 (by norm_num [int64Lo]) (by norm_num [int64Hi]) "life"

/-- C7 counterexample: the claim says a numeric identifier with a
fractional part is coerced to its integer truncation, so decoding the
literal 1.5 should yield the number identifier 1; src/wire.go:137-143
instead fails (the stdlib-compatible unmarshal of a fractional literal
into int64 errors, and the string fallback errors too).  The claim's
other half says any non-number non-string value is a decode error, yet
JSON null decodes successfully (as a no-op, yielding the default
identifier). -/
theorem c7_fraction_counterexample :
    ¬ (ID.unmarshalJSON (JValue.num 1 true) = .ok (NewNumberID 1)) ∧
    ID.unmarshalJSON (JValue.num 1 true) = .error () ∧
    ID.unmarshalJSON JValue.null = .ok defaultID := by
  refine ⟨?_, rfl, idUnmarshal_null⟩
  intro h
  simp [ID.unmarshalJSON, goUnmarshalInt64, goUnmarshalStr] at h

/-- C7 amended: a numeric identifier literal with a fractional part is a
decode error (not a truncation); a JSON null decodes as the default
identifier; any JSON value that is neither a number, a string nor null
is a decode error. -/
theorem c7_id_decode_amended :
    (∀ i : Int, ID.unmarshalJSON (JValue.num i true) = .error ()) ∧
    ID.unmarshalJSON JValue.null = .ok defaultID ∧
    (∀ b : Bool, ID.unmarshalJSON (JValue.bool b) = .error ()) ∧
    (∀ elems : List JValue, ID.unmarshalJSON (JValue.arr elems) = .error ()) ∧
    (∀ fields : List (String × JValue), ID.unmarshalJSON (JValue.obj fields) = .error ()) := by
  refine ⟨fun i => ?_, idUnmarshal_null, fun b => rfl, fun elems => rfl, fun fields => rfl⟩
  simp [ID.unmarshalJSON, goUnmarshalInt64, goUnmarshalStr]

theorem rawField_normRaw (w : JValue) : rawField w = normRaw (some w) := by
  cases w <;> rfl

theorem normRaw_none : normRaw none = none := rfl

theorem foldFields_append {α : Type} (step : α → String × JValue → Except Unit α)
    (l1 l2 : List (String × JValue)) (a : α) :
    foldFields step (l1 ++ l2) a = (foldFields step l1 a).bind (foldFields step l2) := by
  induction l1 generalizing a with
  | nil => rfl
  | cons f rest ih =>
      simp only [List.cons_append, foldFields]
      cases step a f with
      | error e => rfl
      | ok a2 => exact ih a2

theorem exceptBind_ok {α β : Type} (b : α) (f : α → Except Unit β) :
    (Except.ok b).bind f = f b := rfl

theorem exceptMap_ok {α β : Type} (b : α) (f : α → β) :
    Except.map f (Except.ok b : Except Unit α) = .ok (f b) := rfl

theorem unmarshalErrorObj_marshal (er : ErrorObj)
    (hlo : int64Lo ≤ er.code) (hhi : er.code ≤ int64Hi) :
    unmarshalErrorObj (marshalErrorObj er) = .ok (ErrorObj.norm er) := by
  cases er with
  | mk code message data =>
      cases data with
      | none =>
          simp [marshalErrorObj, unmarshalErrorObj, foldFields, errSetField,
            goUnmarshalStr, ErrorObj.norm, normRaw, zeroErrorObj, exceptMap_ok,
            goUnmarshalInt64_num_intEq code hlo hhi]
      | some d =>
          simp [marshalErrorObj, unmarshalErrorObj, foldFields, errSetField,
            goUnmarshalStr, ErrorObj.norm, rawField_normRaw, zeroErrorObj, exceptMap_ok,
            goUnmarshalInt64_num_intEq code hlo hhi]

theorem fold_version_seg (b : Bool) (c : Combined) :
    foldFields combinedSetField
      (if b then [("jsonrpc", JValue.str "2.0")] else []) c = .ok c := by
  cases b <;>
    simp [foldFields, combinedSetField, versionCheck, goUnmarshalStr, exceptMap_ok]

theorem fold_id_seg (o : Option IDLit)
    (ho : match o with
          | some l => l.inRange
          | none => True) (c : Combined) :
    foldFields combinedSetField (optField "id" (o.map IDLit.render)) c =
      .ok (setIdOf o c) := by
  cases o with
  | none => rfl
  | some lit =>
      cases lit with
      | num i =>
          obtain ⟨h1, h2⟩ := ho
          simp [optField, foldFields, combinedSetField, IDLit.render, setIdOf,
            IDLit.toID, idUnmarshal_num i h1 h2, exceptMap_ok]
      | str s =>
          simp [optField, foldFields, combinedSetField, IDLit.render, setIdOf,
            IDLit.toID, idUnmarshal_str, exceptMap_ok]

theorem fold_method_seg (m : Option String) (c : Combined) :
    foldFields combinedSetField (optField "method" (m.map JValue.str)) c =
      .ok (setMethodOf m c) := by
  cases m with
  | none => rfl
  | some s =>
      simp [optField, foldFields, combinedSetField, setMethodOf, goUnmarshalStr,
        exceptMap_ok]

theorem fold_params_seg (p : Option JValue) (c : Combined) :
    foldFields combinedSetField (optField "params" p) c = .ok (setParamsOf p c) := by
  cases p with
  | none => rfl
  | some v =>
      simp [optField, foldFields, combinedSetField, setParamsOf]

theorem fold_result_seg (p : Option JValue) (c : Combined) :
    foldFields combinedSetField (optField "result" p) c = .ok (setResultOf p c) := by
  cases p with
  | none => rfl
  | some v =>
      simp [optField, foldFields, combinedSetField, setResultOf]

theorem fold_err_seg (o : Option ErrorObj)
    (ho : match o with
          | some er => int64Lo ≤ er.code ∧ er.code ≤ int64Hi
          | none => True) (c : Combined) :
    foldFields combinedSetField (optField "error" (o.map marshalErrorObj)) c =
      .ok (setErrOf o c) := by
  cases o with
  | none => rfl
  | some er =>
      obtain ⟨h1, h2⟩ := ho
      cases er with
      | mk code msg data =>
          cases data with
          | none =>
              simp [optField, foldFields, combinedSetField, marshalErrorObj, setErrOf,
                unmarshalErrorObj, errSetField, goUnmarshalStr, ErrorObj.norm, normRaw,
                zeroErrorObj, exceptMap_ok, goUnmarshalInt64_num_intEq code h1 h2]
          | some d =>
              simp [optField, foldFields, combinedSetField, marshalErrorObj, setErrOf,
                unmarshalErrorObj, errSetField, goUnmarshalStr, ErrorObj.norm,
                rawField_normRaw, zeroErrorObj, exceptMap_ok,
                goUnmarshalInt64_num_intEq code h1 h2]

theorem setters_decoded (hv : Bool) (id : Option IDLit) (method : Option String)
    (params result : Option JValue) (err : Option ErrorObj) :
    setErrOf err (setResultOf result (setParamsOf params
      (setMethodOf method (setIdOf id zeroCombined)))) =
      Env.decoded ⟨hv, id, method, params, result, err⟩ := by
  rcases id with _ | lit <;> rcases method with _ | m <;> rcases params with _ | pv <;>
    rcases result with _ | rv <;> rcases err with _ | er <;>
      simp [setIdOf, setMethodOf, setParamsOf, setResultOf, setErrOf, Env.decoded,
        zeroCombined, normRaw_none, rawField_normRaw]

theorem unmarshalCombined_render (e : Env) (hWF : e.WF) :
    unmarshalCombined e.render = .ok e.decoded := by
  obtain ⟨hid, herr⟩ := hWF
  rcases e with ⟨hv, id, method, params, result, err⟩
  simp only [Env.render, unmarshalCombined, List.append_assoc]
  rw [foldFields_append, fold_version_seg, exceptBind_ok,
    foldFields_append, fold_id_seg id hid, exceptBind_ok,
    foldFields_append, fold_method_seg, exceptBind_ok,
    foldFields_append, fold_params_seg, exceptBind_ok,
    foldFields_append, fold_result_seg, exceptBind_ok,
    fold_err_seg err herr, setters_decoded]

/-- C4: for every JSON envelope given to DecodeMessage, classification is
by presence: method set (a non-empty method member) and id set decodes to
a call; method set and id unset decodes to a notification; id set and
method unset decodes to a response; the remaining shape (neither set)
fails with ErrInvalidRequest. -/
theorem c4_decode_classification (e : Env) (hWF : e.WF) :
    (∀ m i, e.method = some m → m ≠ "" → e.id = some i →
        DecodeMessage e.render = .ok (.call m (normRaw e.params) i.toID)) ∧
    (∀ m, e.method = some m → m ≠ "" → e.id = none →
        DecodeMessage e.render = .ok (.notification m (normRaw e.params))) ∧
    (∀ i, e.id = some i → e.methodUnset →
        DecodeMessage e.render =
          .ok (.response (normRaw e.result) (e.err.map ErrorObj.norm) i.toID)) ∧
    (e.methodUnset → e.id = none → DecodeMessage e.render = .error .invalidRequest) := by
  have hdec := unmarshalCombined_render e hWF
  refine ⟨?_, ?_, ?_, ?_⟩
  · intro m i hm hm0 hi
    simp [DecodeMessage, hdec, Env.decoded, hm, hi, hm0]
  · intro m hm hm0 hi
    simp [DecodeMessage, hdec, Env.decoded, hm, hi, hm0]
  · intro i hi hmu
    rcases hmu with h | h <;> simp [DecodeMessage, hdec, Env.decoded, hi, h]
  · intro hmu hi
    rcases hmu with h | h <;> simp [DecodeMessage, hdec, Env.decoded, hi, h]

/-- C4 witness: the four classifications evaluated at concrete
envelopes. -/
theorem c4_decode_classification_witness :
    DecodeMessage (Env.render ⟨true, some (.num 1), some "ping", none, none, none⟩) =
      .ok (.call "ping" none (IDLit.toID (.num 1))) ∧
    DecodeMessage (Env.render ⟨true, none, some "note", none, none, none⟩) =
      .ok (.notification "note" none) ∧
    DecodeMessage (Env.render ⟨true, some (.str "a"), none, none, some (.bool true), none⟩) =
      .ok (.response (some (.bool true)) none (IDLit.toID (.str "a"))) ∧
    DecodeMessage (Env.render ⟨true, none, none, none, none, none⟩) =
      .error .invalidRequest := by
  have hr : int64Lo ≤ (1 : Int) ∧ (1 : Int) ≤ int64Hi := by
    constructor <;> norm_num [int64Lo, int64Hi]
  refine ⟨(c4_decode_classification ⟨true, some (.num 1), some "ping", none, none, none⟩
      ⟨hr, trivial⟩).1 "ping" (.num 1) rfl (by decide) rfl,
    (c4_decode_classification ⟨true, none, some "note", none, none, none⟩
      ⟨trivial, trivial⟩).2.1 "note" rfl (by decide) rfl,
    (c4_decode_classification ⟨true, some (.str "a"), none, none, some (.bool true), none⟩
      ⟨trivial, trivial⟩).2.2.1 (.str "a") rfl (Or.inl rfl),
    (c4_decode_classification ⟨true, none, none, none, none, none⟩
      ⟨trivial, trivial⟩).2.2.2 (Or.inl rfl) rfl⟩

theorem payloadWF_rawOrNull (p : Option JValue) (hp : payloadWF p) :
    rawField (rawOrNull p) = p := by
  cases p with
  | none => rfl
  | some w => cases w <;> first | rfl | exact absurd hp (by simp [payloadWF])

theorem payloadWF_normRaw (p : Option JValue) (hp : payloadWF p) : normRaw p = p := by
  cases p with
  | none => rfl
  | some w => cases w <;> first | rfl | exact absurd hp (by simp [payloadWF])

theorem foldFields_cons {α : Type} (step : α → String × JValue → Except Unit α)
    (f : String × JValue) (rest : List (String × JValue)) (a : α) :
    foldFields step (f :: rest) a = (step a f).bind (foldFields step rest) := by
  cases h : step a f with
  | error e => simp [foldFields, h, Except.bind]
  | ok a2 => simp [foldFields, h, Except.bind]

theorem combinedSetField_jsonrpc (c : Combined) :
    combinedSetField c ("jsonrpc", .str "2.0") = .ok c := by
  simp [combinedSetField, versionCheck, goUnmarshalStr, exceptMap_ok]

theorem combinedSetField_method (c : Combined) (m : String) :
    combinedSetField c ("method", .str m) = .ok { c with method := m } := by
  simp [combinedSetField, goUnmarshalStr, exceptMap_ok]

theorem combinedSetField_params (c : Combined) (v : JValue) :
    combinedSetField c ("params", v) = .ok { c with params := rawField v } := by
  simp [combinedSetField]

theorem combinedSetField_result (c : Combined) (v : JValue) :
    combinedSetField c ("result", v) = .ok { c with result := rawField v } := by
  simp [combinedSetField]

theorem combinedSetField_id (c : Combined) (id : ID) (h : IDWF id) :
    combinedSetField c ("id", ID.marshalJSON id) = .ok { c with id := some id } := by
  rcases h with ⟨h1, h2, h3⟩ | ⟨h1, h2⟩
  · have hm : ID.marshalJSON id = .num id.number false := by
      simp [ID.marshalJSON, h1]
    have hu : ID.unmarshalJSON (.num id.number false) = .ok id := by
      rw [idUnmarshal_num id.number h2 h3]
      cases id
      simp_all [NewNumberID]
    rw [hm]
    simp [combinedSetField, hu, exceptMap_ok]
  · have hm : ID.marshalJSON id = .str id.name := by
      simp [ID.marshalJSON, h1]
    have hu : ID.unmarshalJSON (.str id.name) = .ok id := by
      rw [idUnmarshal_str]
      cases id
      simp_all [NewStringID]
    rw [hm]
    simp [combinedSetField, hu, exceptMap_ok]

theorem combinedSetField_err (c : Combined) (er : ErrorObj)
    (h1 : int64Lo ≤ er.code) (h2 : er.code ≤ int64Hi) :
    combinedSetField c ("error", marshalErrorObj er) =
      .ok { c with err := some er.norm } := by
  cases er with
  | mk code msg data =>
      cases data with
      | none =>
          simp [marshalErrorObj, combinedSetField, exceptMap_ok, unmarshalErrorObj,
            errSetField, foldFields, goUnmarshalStr, zeroErrorObj, ErrorObj.norm,
            normRaw, goUnmarshalInt64_num_intEq code h1 h2]
      | some d =>
          simp [marshalErrorObj, combinedSetField, exceptMap_ok, unmarshalErrorObj,
            errSetField, foldFields, goUnmarshalStr, zeroErrorObj, ErrorObj.norm,
            rawField_normRaw, goUnmarshalInt64_num_intEq code h1 h2]

theorem idRoundtrip (id : ID) (h : IDWF id) :
    ID.unmarshalJSON (ID.marshalJSON id) = .ok id := by
  rcases h with ⟨h1, h2, h3⟩ | ⟨h1, h2⟩
  · have hm : ID.marshalJSON id = .num id.number false := by
      simp [ID.marshalJSON, h1]
    rw [hm, idUnmarshal_num id.number h2 h3]
    cases id
    simp_all [NewNumberID]
  · have hm : ID.marshalJSON id = .str id.name := by
      simp [ID.marshalJSON, h1]
    rw [hm, idUnmarshal_str]
    cases id
    simp_all [NewStringID]

/-- C5 counterexample: the claim quantifies over every message, but a call
whose params payload is the literal JSON null blob (exactly what
NewRequest produces for nil params) does not round-trip: the encoder
emits `"params": null`, which the decoder reads back as an absent raw
message, so the decoded call differs from the original in its raw
params blob. -/
theorem c5_roundtrip_counterexample :
    DecodeMessage (EncodeMessage (.call "m" (some .null) (NewNumberID 1))) =
      .ok (.call "m" none (NewNumberID 1)) ∧
    Message.call "m" none (NewNumberID 1) ≠ .call "m" (some .null) (NewNumberID 1) := by
  constructor
  · rfl
  · intro h
    simp at h

/-- C5 amended: decoding the encoding of M yields M again for every
message M of the data model (non-empty method, constructor-formed
identifier, a response carrying exactly one of result and error) whose
raw payloads are not the literal JSON null blob; a literal-null payload
instead decodes as an absent payload. -/
theorem c5_roundtrip_amended (m : Message) (hWF : MessageWF m) :
    DecodeMessage (EncodeMessage m) = .ok m := by
  cases m with
  | call method params id =>
      obtain ⟨hm, hp, hid⟩ := hWF
      simp only [EncodeMessage, Message.marshalJSON, DecodeMessage, unmarshalCombined]
      rw [foldFields_cons, combinedSetField_jsonrpc, exceptBind_ok,
        foldFields_cons, combinedSetField_method, exceptBind_ok,
        foldFields_cons, combinedSetField_params, exceptBind_ok,
        foldFields_cons, combinedSetField_id _ _ hid, exceptBind_ok]
      simp [foldFields, payloadWF_rawOrNull params hp, hm, zeroCombined]
  | notification method params =>
      obtain ⟨hm, hp⟩ := hWF
      simp only [EncodeMessage, Message.marshalJSON, DecodeMessage, unmarshalCombined]
      rw [foldFields_cons, combinedSetField_jsonrpc, exceptBind_ok,
        foldFields_cons, combinedSetField_method, exceptBind_ok,
        foldFields_cons, combinedSetField_params, exceptBind_ok]
      simp [foldFields, payloadWF_rawOrNull params hp, hm, zeroCombined]
  | response result err id =>
      obtain ⟨hid, herr⟩ := hWF
      cases err with
      | none =>
          simp only [EncodeMessage, Message.marshalJSON, DecodeMessage, unmarshalCombined]
          rw [foldFields_cons, combinedSetField_jsonrpc, exceptBind_ok,
            foldFields_cons, combinedSetField_result, exceptBind_ok,
            foldFields_cons, combinedSetField_id _ _ hid, exceptBind_ok]
          simp [foldFields, payloadWF_rawOrNull result herr, zeroCombined]
      | some er =>
          obtain ⟨⟨h1, h2, h3⟩, hr⟩ := herr
          subst hr
          have hnorm : ErrorObj.norm er = er := by
            simp [ErrorObj.norm, payloadWF_normRaw er.data h3]
          simp only [EncodeMessage, Message.marshalJSON, DecodeMessage, unmarshalCombined]
          rw [foldFields_cons, combinedSetField_jsonrpc, exceptBind_ok,
            foldFields_cons, combinedSetField_err _ _ h1 h2, exceptBind_ok,
            foldFields_cons, combinedSetField_id _ _ hid, exceptBind_ok, hnorm]
          simp [foldFields, zeroCombined]

/-- C5 witness: round trip evaluated at one concrete message of each
variant. -/
theorem c5_roundtrip_amended_witness :
    DecodeMessage (EncodeMessage (.call "add" (some (.arr [.num 1 false]))
      (NewNumberID 7))) = .ok (.call "add" (some (.arr [.num 1 false])) (NewNumberID 7)) ∧
    DecodeMessage (EncodeMessage (.notification "note" none)) =
      .ok (.notification "note" none) ∧
    DecodeMessage (EncodeMessage (.response none
      (some ⟨-32601, "JSON-RPC method not found", none⟩) (NewStringID "life"))) =
      .ok (.response none (some ⟨-32601, "JSON-RPC method not found", none⟩)
        (NewStringID "life")) := by
  refine ⟨c5_roundtrip_amended _ ⟨by decide, trivial, Or.inl ⟨rfl, ?_, ?_⟩⟩,
    c5_roundtrip_amended _ ⟨by decide, trivial⟩,
    c5_roundtrip_amended _ ⟨Or.inr ⟨by decide, rfl⟩, ⟨?_, ?_, trivial⟩, rfl⟩⟩ <;>
    norm_num [NewNumberID, NewStringID, int64Lo, int64Hi]

theorem dropWhile_head_eq_self (l : List Char)
    (h : ∀ g ∈ l.head?, goIsSpace g = false) : l.dropWhile goIsSpace = l := by
  cases l with
  | nil => rfl
  | cons c cs =>
      have hc : goIsSpace c = false := h c (by simp)
      simp [List.dropWhile_cons, hc]

theorem dropWhile_last_rev_eq_self (l : List Char)
    (h : ∀ g ∈ l.getLast?, goIsSpace g = false) :
    l.reverse.dropWhile goIsSpace = l.reverse := by
  apply dropWhile_head_eq_self
  intro g hg
  apply h
  rwa [← List.head?_reverse]

theorem optionAll_spec (o : Option Char) (p : Char → Bool) (h : o.all p = true) :
    ∀ g ∈ o, p g = true := by
  intro g hg
  cases o with
  | none => cases hg
  | some x =>
      have hx : x = g := by simpa using hg
      subst hx
      simpa [Option.all] using h

theorem trim_eq_self (l : List Char) (h : noSpaceEnds l = true) : trimSpaceL l = l := by
  have hsplit : (l.head?.all fun g => !goIsSpace g) = true ∧
      (l.getLast?.all fun g => !goIsSpace g) = true := by
    simpa [noSpaceEnds] using h
  have hh : ∀ g ∈ l.head?, goIsSpace g = false := by
    intro g hg
    have := optionAll_spec _ _ hsplit.1 g hg
    simpa using this
  have hl : ∀ g ∈ l.getLast?, goIsSpace g = false := by
    intro g hg
    have := optionAll_spec _ _ hsplit.2 g hg
    simpa using this
  unfold trimSpaceL
  rw [dropWhile_head_eq_self l hh, dropWhile_last_rev_eq_self l hl,
    List.reverse_reverse]

theorem trim_line (M : List Char) (hM : M ≠ [])
    (hh : ∀ g ∈ M.head?, goIsSpace g = false)
    (hl : ∀ g ∈ M.getLast?, goIsSpace g = false) :
    trimSpaceL (M ++ ['\r', '\n']) = M := by
  unfold trimSpaceL
  have h1 : (M ++ ['\r', '\n']).dropWhile goIsSpace = M ++ ['\r', '\n'] := by
    cases M with
    | nil => exact absurd rfl hM
    | cons c cs =>
        have hc : goIsSpace c = false := hh c (by simp)
        simp [List.dropWhile_cons, hc]
  rw [h1]
  have h2 : (M ++ ['\r', '\n']).reverse = '\n' :: '\r' :: M.reverse := by
    simp
  rw [h2]
  have s1 : goIsSpace '\n' = true := by decide
  have s2 : goIsSpace '\r' = true := by decide
  have h3 : List.dropWhile goIsSpace ('\n' :: '\r' :: M.reverse) =
      List.dropWhile goIsSpace M.reverse := by
    simp [List.dropWhile_cons, s1, s2]
  rw [h3, dropWhile_last_rev_eq_self M hl, List.reverse_reverse]

theorem getLast?_append_cons (l1 : List Char) (c : Char) (l2 : List Char) :
    (l1 ++ c :: l2).getLast? = (c :: l2).getLast? := by
  rw [← List.head?_reverse, ← List.head?_reverse, List.reverse_append]
  cases hr : (c :: l2).reverse with
  | nil => exact absurd (congrArg List.length hr) (by simp)
  | cons x xs => simp [hr]

theorem idxColon_append (name : List Char) (hn : ∀ c ∈ name, c ≠ ':')
    (value : List Char) :
    idxColon (name ++ ':' :: value) = some name.length := by
  induction name with
  | nil => simp [idxColon]
  | cons c cs ih =>
      have hc : c ≠ ':' := hn c (by simp)
      have ihh := ih fun x hx => hn x (by simp [hx])
      simp [idxColon, hc, ihh]

theorem take_name (name value : List Char) :
    (name ++ ':' :: value).take name.length = name := by
  exact List.take_left name (':' :: value)

theorem drop_value (name value : List Char) :
    (name ++ ':' :: value).drop (name.length + 1) = value := by
  rw [show name ++ ':' :: value = (name ++ [':']) ++ value by simp,
    show name.length + 1 = (name ++ [':']).length by simp]
  exact List.drop_left _ _

theorem trim_blankLine : trimSpaceL blankLine = [] := by decide

theorem linesOf_line (l2 : List Char) (h : '\n' ∉ l2) (s : List Char) :
    linesOf (l2 ++ '\n' :: s) = ((l2 ++ ['\n']) :: (linesOf s).1, (linesOf s).2) := by
  induction l2 with
  | nil => simp [linesOf]
  | cons c cs ih =>
      have hc : c ≠ '\n' := fun hh => h (by simp [hh])
      have ihh := ih fun hm => h (by simp [hm])
      simp [linesOf, hc, ihh]

theorem linesOf_partition (s : List Char) :
    (linesOf s).1.foldr (· ++ ·) (linesOf s).2 = s := by
  induction s with
  | nil => rfl
  | cons c cs ih =>
      by_cases hc : c = '\n'
      · subst hc
        simpa [linesOf] using ih
      · cases hsplit : linesOf cs with
        | mk ls t =>
            rw [hsplit] at ih
            cases ls with
            | nil =>
                simp [linesOf, hc, hsplit]
                exact ih
            | cons l lrest =>
                simp [linesOf, hc, hsplit]
                exact ih

theorem linesOf_renderHeaders (items : List (List Char × List Char))
    (hWF : ∀ it ∈ items, WFHeader it.1 it.2) (s : List Char) :
    linesOf (renderHeaders items ++ s) =
      (items.map (fun it => lineOf it.1 it.2) ++ (linesOf s).1, (linesOf s).2) := by
  induction items with
  | nil => simp [renderHeaders]
  | cons it rest ih =>
      obtain ⟨h1, h2, h3, _⟩ := hWF it (by simp)
      have hnl : '\n' ∉ it.1 ++ ':' :: it.2 ++ ['\r'] := by
        intro hm
        rcases List.mem_append.mp hm with hm1 | hm2
        · rcases List.mem_append.mp hm1 with hm1a | hm1b
          · have := (h2 _ hm1a).2
            simp [goIsSpace] at this
          · rcases List.mem_cons.mp hm1b with hh | hh
            · exact absurd hh.symm (by decide)
            · exact h3 hh
        · simp at hm2
      have hline : renderHeaders (it :: rest) ++ s =
          (it.1 ++ ':' :: it.2 ++ ['\r']) ++ '\n' ::
            (renderHeaders rest ++ s) := by
        simp [renderHeaders, lineOf]
      rw [hline, linesOf_line _ hnl, ih fun x hx => hWF x (by simp [hx])]
      simp [lineOf]

theorem headerLine_parts (name value : List Char)
    (h1 : name ≠ []) (h2 : ∀ c ∈ name, c ≠ ':' ∧ goIsSpace c = false)
    (h4 : noSpaceEnds value = true) :
    trimSpaceL (lineOf name value) = name ++ ':' :: value ∧
    idxColon (name ++ ':' :: value) = some name.length ∧
    trimSpaceL ((name ++ ':' :: value).drop (name.length + 1)) = value := by
  have hsplit : (value.head?.all fun g => !goIsSpace g) = true ∧
      (value.getLast?.all fun g => !goIsSpace g) = true := by
    simpa [noSpaceEnds] using h4
  refine ⟨?_, idxColon_append name (fun c hc => (h2 c hc).1) value, ?_⟩
  · have hrw : lineOf name value = (name ++ ':' :: value) ++ ['\r', '\n'] := by
      simp [lineOf]
    rw [hrw]
    apply trim_line
    · simp
    · intro g hg
      cases name with
      | nil => exact absurd rfl h1
      | cons c cs =>
          have hgc : c = g := by simpa using hg
          subst hgc
          exact (h2 c (by simp)).2
    · intro g hg
      rw [getLast?_append_cons] at hg
      cases value with
      | nil =>
          have hgc : ':' = g := by simpa using hg
          subst hgc
          decide
      | cons v vs =>
          rw [show (':' :: v :: vs) = [':'] ++ v :: vs from rfl,
            getLast?_append_cons] at hg
          have := optionAll_spec _ _ hsplit.2 g hg
          simpa using this
  · rw [drop_value]
    exact trim_eq_self value h4

theorem renderHeaders_append (a b : List (List Char × List Char)) :
    renderHeaders (a ++ b) = renderHeaders a ++ renderHeaders b := by
  induction a with
  | nil => simp [renderHeaders]
  | cons it rest ih =>
      rw [List.cons_append,
        show renderHeaders (it :: (rest ++ b)) =
          lineOf it.1 it.2 ++ renderHeaders (rest ++ b) from rfl,
        show renderHeaders (it :: rest) =
          lineOf it.1 it.2 ++ renderHeaders rest from rfl,
        ih, List.append_assoc]

theorem headerLoopLines_cons_unknown (name value : List Char)
    (hWF : WFHeader name value) (hne : name ≠ contentLengthKey)
    (ls : List (List Char)) (len : Int) :
    headerLoopLines (lineOf name value :: ls) len = headerLoopLines ls len := by
  obtain ⟨h1, h2, _, h4⟩ := hWF
  obtain ⟨hM, hidx, _⟩ := headerLine_parts name value h1 h2 h4
  have hne2 : name ++ ':' :: value ≠ [] := by simp
  simp only [headerLoopLines, hM, hidx]
  simp [hne2, take_name, hne]

theorem headerLoopLines_skipAll (items : List (List Char × List Char))
    (hU : UnknownWF items) (ls : List (List Char)) (len : Int) :
    headerLoopLines (items.map (fun it => lineOf it.1 it.2) ++ ls) len =
      headerLoopLines ls len := by
  induction items with
  | nil => rfl
  | cons it rest ih =>
      obtain ⟨hWF, hne⟩ := hU it (by simp)
      simp only [List.map_cons, List.cons_append]
      rw [headerLoopLines_cons_unknown it.1 it.2 hWF hne]
      exact ih fun x hx => hU x (by simp [hx])

theorem headerLoopLines_blank (ls : List (List Char)) (len : Int) :
    headerLoopLines (blankLine :: ls) len = .ok (len, ls) := by
  simp [headerLoopLines, trim_blankLine]

theorem headerLoopLines_cons_cl (value : List Char)
    (hWF : WFHeader contentLengthKey value) (ls : List (List Char)) (len : Int) :
    headerLoopLines (lineOf contentLengthKey value :: ls) len =
      match parseIntDec32 value with
      | none => Except.error .badContentLength
      | some v =>
          if v ≤ 0 then Except.error .nonPositiveContentLength
          else headerLoopLines ls v := by
  obtain ⟨h1, h2, _, h4⟩ := hWF
  obtain ⟨hM, hidx, hval⟩ := headerLine_parts contentLengthKey value h1 h2 h4
  have hne2 : contentLengthKey ++ ':' :: value ≠ [] := by simp
  have htv : trimSpaceL value = value := trim_eq_self value h4
  simp only [headerLoopLines, hM, hidx]
  simp [hne2, take_name, hval, htv]

theorem linesOf_blank_body (body : List Char) :
    linesOf (blankLine ++ body) = (blankLine :: (linesOf body).1, (linesOf body).2) := by
  have h := linesOf_line ['\r'] (by decide) body
  simpa [blankLine] using h

/-- C9: the header-framing Reader consumes header lines up to the first
blank line; it requires a Content-Length header whose value parses (via
ParseInt with bitSize 32, so at most 2^31-1) as a positive integer,
failing Read when the value does not parse, is not positive, or the
header is absent; unknown headers are ignored; and after the blank line
it reads exactly Content-Length bytes as the message body (failing when
fewer are available). -/
theorem c9_header_reader :
    (∀ s i, parseIntDec32 s = some i → -(2 ^ 31) ≤ i ∧ i ≤ (2 ^ 31 - 1 : Int)) ∧
    (∀ pre post v n body,
      UnknownWF pre → UnknownWF post → WFHeader contentLengthKey v →
      parseIntDec32 v = some n → 0 < n →
      (n.toNat ≤ body.length →
        headerRead (renderHeaders pre ++ lineOf contentLengthKey v ++
            renderHeaders post ++ blankLine ++ body) =
          .ok (body.take n.toNat, body.drop n.toNat)) ∧
      (body.length < n.toNat →
        headerRead (renderHeaders pre ++ lineOf contentLengthKey v ++
            renderHeaders post ++ blankLine ++ body) = .error .shortBody)) ∧
    (∀ items body, UnknownWF items →
      headerRead (renderHeaders items ++ blankLine ++ body) =
        .error .missingContentLength) ∧
    (∀ pre v body, UnknownWF pre → WFHeader contentLengthKey v →
      parseIntDec32 v = none →
      headerRead (renderHeaders pre ++ lineOf contentLengthKey v ++ body) =
        .error .badContentLength) ∧
    (∀ pre v n body, UnknownWF pre → WFHeader contentLengthKey v →
      parseIntDec32 v = some n → n ≤ 0 →
      headerRead (renderHeaders pre ++ lineOf contentLengthKey v ++ body) =
        .error .nonPositiveContentLength) := by
  refine ⟨?_, ?_, ?_, ?_, ?_⟩
  · intro s i h
    unfold parseIntDec32 at h
    cases hp : parseIntDecRaw s with
    | none => rw [hp] at h; cases h
    | some v =>
        rw [hp] at h
        have h2 : (if v < -(2 ^ 31) ∨ (2 ^ 31 - 1 : Int) < v then none
            else some v) = some i := h
        by_cases hb : v < -(2 ^ 31) ∨ (2 ^ 31 - 1 : Int) < v
        · rw [if_pos hb] at h2; cases h2
        · rw [if_neg hb] at h2
          obtain rfl : v = i := Option.some.inj h2
          push_neg at hb
          exact ⟨hb.1, hb.2⟩
  · intro pre post v n body hpre hpost hcl hv hn
    have hstream : renderHeaders pre ++ lineOf contentLengthKey v ++
        renderHeaders post ++ blankLine ++ body =
        renderHeaders (pre ++ (contentLengthKey, v) :: post) ++ (blankLine ++ body) := by
      rw [renderHeaders_append,
        show renderHeaders ((contentLengthKey, v) :: post) =
          lineOf contentLengthKey v ++ renderHeaders post from rfl]
      simp [List.append_assoc]
    have hall : ∀ it ∈ pre ++ (contentLengthKey, v) :: post, WFHeader it.1 it.2 := by
      intro it hit
      rcases List.mem_append.mp hit with h | h
      · exact (hpre it h).1
      · rcases List.mem_cons.mp h with h | h
        · rw [h]; exact hcl
        · exact (hpost it h).1
    have hlines : linesOf (renderHeaders (pre ++ (contentLengthKey, v) :: post) ++
        (blankLine ++ body)) =
        ((pre ++ (contentLengthKey, v) :: post).map (fun it => lineOf it.1 it.2) ++
          blankLine :: (linesOf body).1, (linesOf body).2) := by
      rw [linesOf_renderHeaders _ hall, linesOf_blank_body]
    have hloop : headerLoopLines
        ((pre ++ (contentLengthKey, v) :: post).map (fun it => lineOf it.1 it.2) ++
          blankLine :: (linesOf body).1) 0 = .ok (n, (linesOf body).1) := by
      rw [List.map_append, List.map_cons, List.append_assoc, List.cons_append,
        headerLoopLines_skipAll pre hpre, headerLoopLines_cons_cl v hcl, hv]
      simp only
      rw [if_neg (not_le.mpr hn), headerLoopLines_skipAll post hpost,
        headerLoopLines_blank]
    have hcommon : headerRead (renderHeaders pre ++ lineOf contentLengthKey v ++
        renderHeaders post ++ blankLine ++ body) =
        (if body.length < n.toNat then Except.error .shortBody
         else .ok (body.take n.toNat, body.drop n.toNat)) := by
      rw [hstream]
      unfold headerRead
      rw [hlines]
      simp only
      rw [hloop]
      simp only
      rw [linesOf_partition body, if_neg (by omega : ¬ n = 0)]
    refine ⟨fun hle => ?_, fun hlt => ?_⟩
    · rw [hcommon, if_neg (by omega)]
    · rw [hcommon, if_pos hlt]
  · intro items body hU
    have hall : ∀ it ∈ items, WFHeader it.1 it.2 := fun it h => (hU it h).1
    have hstream : renderHeaders items ++ blankLine ++ body =
        renderHeaders items ++ (blankLine ++ body) := by
      simp [List.append_assoc]
    rw [hstream]
    unfold headerRead
    rw [linesOf_renderHeaders _ hall, linesOf_blank_body]
    simp only
    rw [headerLoopLines_skipAll items hU, headerLoopLines_blank]
    simp
  · intro pre v body hpre hcl hv
    have hstream : renderHeaders pre ++ lineOf contentLengthKey v ++ body =
        renderHeaders (pre ++ [(contentLengthKey, v)]) ++ body := by
      rw [renderHeaders_append,
        show renderHeaders [(contentLengthKey, v)] =
          lineOf contentLengthKey v ++ renderHeaders [] from rfl]
      simp [renderHeaders, List.append_assoc]
    have hall : ∀ it ∈ pre ++ [(contentLengthKey, v)], WFHeader it.1 it.2 := by
      intro it hit
      rcases List.mem_append.mp hit with h | h
      · exact (hpre it h).1
      · have : it = (contentLengthKey, v) := by simpa using h
        rw [this]; exact hcl
    rw [hstream]
    unfold headerRead
    rw [linesOf_renderHeaders _ hall]
    simp only
    rw [List.map_append, List.map_cons, List.map_nil, List.append_assoc,
      List.cons_append, List.nil_append,
      headerLoopLines_skipAll pre hpre, headerLoopLines_cons_cl v hcl, hv]
  · intro pre v n body hpre hcl hv hn
    have hstream : renderHeaders pre ++ lineOf contentLengthKey v ++ body =
        renderHeaders (pre ++ [(contentLengthKey, v)]) ++ body := by
      rw [renderHeaders_append,
        show renderHeaders [(contentLengthKey, v)] =
          lineOf contentLengthKey v ++ renderHeaders [] from rfl]
      simp [renderHeaders, List.append_assoc]
    have hall : ∀ it ∈ pre ++ [(contentLengthKey, v)], WFHeader it.1 it.2 := by
      intro it hit
      rcases List.mem_append.mp hit with h | h
      · exact (hpre it h).1
      · have : it = (contentLengthKey, v) := by simpa using h
        rw [this]; exact hcl
    rw [hstream]
    unfold headerRead
    rw [linesOf_renderHeaders _ hall]
    simp only
    rw [List.map_append, List.map_cons, List.map_nil, List.append_assoc,
      List.cons_append, List.nil_append,
      headerLoopLines_skipAll pre hpre, headerLoopLines_cons_cl v hcl, hv]
    simp only
    rw [if_pos hn]

/-- C9 witness: a concrete framed stream with an ignored Content-Type
header, Content-Length 2 and a three-byte remainder: exactly two body
bytes are consumed. -/
theorem c9_header_reader_witness :
    headerRead (renderHeaders [(['C', 'o', 'n', 't', 'e', 'n', 't', '-', 'T', 'y', 'p', 'e'],
        ['a', 'p', 'p'])] ++ lineOf contentLengthKey ['2'] ++ renderHeaders [] ++
        blankLine ++ ['X', 'Y', 'Z']) = .ok (['X', 'Y'], ['Z']) := by
  have h := (c9_header_reader.2.1 [(['C', 'o', 'n', 't', 'e', 'n', 't', '-', 'T', 'y', 'p', 'e'],
      ['a', 'p', 'p'])] [] ['2'] 2 ['X', 'Y', 'Z'] (by decide) (by decide) (by decide)
      (by decide) (by decide)).1 (by decide)
  exact h

/-- C8: a call whose handler produced neither result nor error is
answered with a Response carrying an InternalError wrap naming the
method; a notification never produces a wire reply, whatever the handler
returned. -/
theorem c8_response_policy :
    (∀ req : EngRequest, req.IsCall = true →
      connResponse req none none =
        (some { id := req.id, result := JValue.null,
                err := some (wrapInternal (goQuote req.method ++ " produced no response")) },
         none) ∧
      GoErr.is (wrapInternal (goQuote req.method ++ " produced no response"))
        ErrInternalGo = true) ∧
    (∀ (req : EngRequest) (result : Option JValue) (rerr : Option GoErr),
      req.IsCall = false → (connResponse req result rerr).1 = none) := by
  constructor
  · intro req h
    constructor
    · simp [connResponse, h, engNewResponse]
    · rfl
  · intro req result rerr h
    simp only [connResponse, h, Bool.false_eq_true, if_false]
    cases rerr with
    | some re => rfl
    | none => cases result <;> rfl

/-- C8 witness: the two branches evaluated at a concrete call and a
concrete notification. -/
theorem c8_response_policy_witness :
    connResponse ⟨NewNumberID 5, "m", none⟩ none none =
      (some { id := NewNumberID 5, result := JValue.null,
              err := some (wrapInternal (goQuote "m" ++ " produced no response")) },
       none) ∧
    (connResponse ⟨defaultID, "note", none⟩ (some (JValue.bool true)) none).1 = none :=
  ⟨(c8_response_policy.1 ⟨NewNumberID 5, "m", none⟩ (by decide)).1,
   c8_response_policy.2 ⟨defaultID, "note", none⟩ (some (JValue.bool true)) none (by decide)⟩

/-- C1 counterexample: the claim says the pending outbound call with id 1
receives a synthesised error Response when the reader fails; running
readIncoming (src/conn.go:208-250) on a failing read instead only records
the error for Wait/Close: nothing is delivered, the call stays pending,
and no response for id 1 exists. -/
theorem c1_reader_failure_counterexample :
    (readIncoming ⟨[NewNumberID 1], [], [], [], none⟩
      [.fail (.text "read failed")]).delivered = [] ∧
    (readIncoming ⟨[NewNumberID 1], [], [], [], none⟩
      [.fail (.text "read failed")]).outPending = [NewNumberID 1] ∧
    (readIncoming ⟨[NewNumberID 1], [], [], [], none⟩
      [.fail (.text "read failed")]).asyncErr = some (.text "read failed") ∧
    ¬ ∃ p ∈ (readIncoming ⟨[NewNumberID 1], [], [], [], none⟩
      [.fail (.text "read failed")]).delivered, p.1 = NewNumberID 1 := by
  have hd : (readIncoming ⟨[NewNumberID 1], [], [], [], none⟩
      [.fail (.text "read failed")]).delivered = ([] : List (ID × EngResponse)) := rfl
  refine ⟨hd, rfl, rfl, ?_⟩
  rintro ⟨p, hp, -⟩
  rw [hd] at hp
  exact List.not_mem_nil p hp

/-- C1 amended: when the framing reader fails, the read error is only
recorded in the connection's async error slot (surfaced by Wait/Close,
first error wins); the correlation table, the delivered responses, the
incomings table and the queue are exactly as they were before the
failing read — pending outbound calls receive no synthesised Response. -/
theorem c1_reader_failure_amended (s : ConnState) (events : List ReadEvent) (e : GoErr)
    (hok : ∀ ev ∈ events, ev.isFail = false) :
    readIncoming s (events ++ [.fail e]) =
      { readIncoming s events with
        asyncErr := setErrFirst (readIncoming s events).asyncErr e } := by
  induction events generalizing s with
  | nil => rfl
  | cons ev rest ih =>
      cases ev with
      | fail e2 => exact absurd (hok (.fail e2) (by simp)) (by simp [ReadEvent.isFail])
      | msg m =>
          have hrest : ∀ x ∈ rest, ReadEvent.isFail x = false :=
            fun x hx => hok x (by simp [hx])
          cases m with
          | req r =>
              simp only [List.cons_append, readIncoming]
              exact ih _ hrest
          | resp mr =>
              simp only [List.cons_append, readIncoming]
              exact ih _ hrest

/-- C1 witness: a successful response read followed by a read failure,
evaluated concretely. -/
theorem c1_reader_failure_amended_witness :
    readIncoming ⟨[NewNumberID 1], [], [], [], none⟩
        ([ReadEvent.msg (.resp ⟨NewNumberID 9, JValue.null, none⟩)] ++
          [.fail (.text "boom")]) =
      { readIncoming ⟨[NewNumberID 1], [], [], [], none⟩
          [ReadEvent.msg (.resp ⟨NewNumberID 9, JValue.null, none⟩)] with
        asyncErr := setErrFirst (readIncoming ⟨[NewNumberID 1], [], [], [], none⟩
          [ReadEvent.msg (.resp ⟨NewNumberID 9, JValue.null, none⟩)]).asyncErr
          (.text "boom") } :=
  c1_reader_failure_amended ⟨[NewNumberID 1], [], [], [], none⟩
    [ReadEvent.msg (.resp ⟨NewNumberID 9, JValue.null, none⟩)] (.text "boom")
    (by decide)

/-- C10: on a write failure Request does complete the AsyncRequest — the
synthesised Response carrying the wrapped write error is removed from
the pending table and lands in the request's response channel, so Await
returns that error without blocking — but IsReady is false until Await
has run, because IsReady only probes the result box, which Await alone
fills.  This contradicts the claim (and the doc comment of
src/conn.go:80-83, which promises IsReady true for "a call that failed
to send in the first place"): the last conjunct shows IsReady = false
before Await and the previous one shows it only becomes true after. -/
theorem c10_write_failure (seq : Int) (p0 : List ID) (e : GoErr)
    (hfresh : Int64ID (seq + 1) ∉ p0) :
    (RequestWriteFail seq p0 e).2 = p0 ∧
    (RequestWriteFail seq p0 e).1.responseBox =
      some (engNewResponse (Int64ID (seq + 1)) none (some (wrapWriteErr e))) ∧
    Await (RequestWriteFail seq p0 e).1 =
      some (some (wrapWriteErr e),
        { id := Int64ID (seq + 1), responseBox := none,
          resultBox := some (some (wrapWriteErr e), none) }) ∧
    (∀ r ar2, Await (RequestWriteFail seq p0 e).1 = some (r, ar2) →
      IsReady ar2 = true) ∧
    IsReady (RequestWriteFail seq p0 e).1 = false := by
  have hmem : Int64ID (seq + 1) ∈ p0 ++ [Int64ID (seq + 1)] := by simp
  have hr : RequestWriteFail seq p0 e =
      ({ id := Int64ID (seq + 1),
         responseBox := some (engNewResponse (Int64ID (seq + 1)) none
           (some (wrapWriteErr e))),
         resultBox := none }, p0) := by
    simp only [RequestWriteFail]
    rw [if_pos hmem, List.erase_append_right _ hfresh]
    simp
  refine ⟨by rw [hr], by rw [hr], by rw [hr]; rfl, ?_, by rw [hr]; rfl⟩
  intro r ar2 h
  rw [hr] at h
  have h2 : _ = ar2 := congrArg Prod.snd (Option.some.inj h)
  rw [← h2]
  rfl

/-- C10 witness: the divergence evaluated at seq 0 with an empty pending
table and a concrete write error. -/
theorem c10_write_failure_witness :
    (RequestWriteFail 0 [] (.text "boom")).2 = [] ∧
    IsReady (RequestWriteFail 0 [] (.text "boom")).1 = false :=
  ⟨(c10_write_failure 0 [] (.text "boom") (by decide)).1,
   (c10_write_failure 0 [] (.text "boom") (by decide)).2.2.2.2⟩

theorem lookupEntry_mem (id : ID) (l : List (ID × Entry)) (e : Entry)
    (h : lookupEntry id l = some e) : (id, e) ∈ l := by
  induction l with
  | nil => cases h
  | cons p rest ih =>
      cases p with
      | mk k v =>
          by_cases hk : k = id
          · rw [show lookupEntry id ((k, v) :: rest) = some v by
              simp [lookupEntry, hk]] at h
            have hv := Option.some.inj h
            subst hk
            subst hv
            exact List.mem_cons_self _ _
          · rw [show lookupEntry id ((k, v) :: rest) = lookupEntry id rest by
              simp [lookupEntry, hk]] at h
            exact List.mem_cons_of_mem _ (ih h)

theorem mem_removeEntry (id : ID) (l : List (ID × Entry)) (p : ID × Entry)
    (h : p ∈ removeEntry id l) : p ∈ l := by
  induction l with
  | nil => cases h
  | cons q rest ih =>
      cases q with
      | mk k v =>
          by_cases hk : k = id
          · rw [show removeEntry id ((k, v) :: rest) = removeEntry id rest by
              simp [removeEntry, hk]] at h
            exact List.mem_cons_of_mem _ (ih h)
          · rw [show removeEntry id ((k, v) :: rest) = (k, v) :: removeEntry id rest by
              simp [removeEntry, hk]] at h
            rcases List.mem_cons.mp h with h1 | h1
            · exact h1 ▸ List.mem_cons_self _ _
            · exact List.mem_cons_of_mem _ (ih h1)

theorem lookupEntry_removeEntry_self (id : ID) (l : List (ID × Entry)) :
    lookupEntry id (removeEntry id l) = none := by
  induction l with
  | nil => rfl
  | cons q rest ih =>
      cases q with
      | mk k v =>
          by_cases hk : k = id
          · simpa [removeEntry, hk] using ih
          · simpa [removeEntry, lookupEntry, hk] using ih

theorem lookupEntry_removeEntry_ne (id id2 : ID) (hne : id ≠ id2)
    (l : List (ID × Entry)) :
    lookupEntry id (removeEntry id2 l) = lookupEntry id l := by
  induction l with
  | nil => rfl
  | cons q rest ih =>
      cases q with
      | mk k v =>
          by_cases hk : k = id2
          · have hki : ¬ k = id := by rw [hk]; exact fun hkk => hne hkk.symm
            simp [removeEntry, lookupEntry, hk, hki, ih, Ne.symm hne]
          · by_cases hki : k = id
            · simp [removeEntry, lookupEntry, hk, hki, hne]
            · simp [removeEntry, lookupEntry, hk, hki, ih]

theorem framesFor_append (id : ID) (a b : List EngResponse) :
    framesFor id (a ++ b) = framesFor id a + framesFor id b := by
  simp [framesFor, List.filter_append]

theorem connResponse_frame_id (req : EngRequest) (r : Option JValue)
    (er : Option GoErr) (w : EngResponse)
    (hw : w ∈ (connResponse req r er).1.toList) : w.id = req.id := by
  by_cases hc : req.IsCall = true
  · have : (connResponse req r er).1 =
        some (engNewResponse req.id r
          (if r.isNone && er.isNone then
            some (wrapInternal (goQuote req.method ++ " produced no response"))
           else er)) := by
      simp [connResponse, hc]
    rw [this, Option.toList_some] at hw
    have hww := List.mem_singleton.mp hw
    rw [hww]
    rfl
  · have hc2 : req.IsCall = false := by revert hc; cases req.IsCall <;> simp
    have : (connResponse req r er).1 = none := by
      simp only [connResponse, hc2, Bool.false_eq_true, if_false]
      cases er with
      | some re => rfl
      | none => cases r <;> rfl
    rw [this] at hw
    cases hw

theorem framesFor_toList_le_one (id : ID) (o : Option EngResponse) :
    framesFor id o.toList ≤ 1 := by
  cases o with
  | none => simp [framesFor]
  | some w =>
      simp only [Option.toList_some, framesFor, List.filter]
      cases w.id == id <;> simp

theorem respInv_step (id : ID) (s : IncomingState)
    (hWF : TableWF s.incomings) (hF : framesFor id s.writes ≤ 1)
    (hP : lookupEntry id s.incomings ≠ none → framesFor id s.writes = 0)
    (id2 : ID) (r : Option JValue) (er : Option GoErr) :
    TableWF ((ResponseOp s id2 r er).1).incomings ∧
    framesFor id ((ResponseOp s id2 r er).1).writes ≤ 1 ∧
    (lookupEntry id ((ResponseOp s id2 r er).1).incomings ≠ none →
      framesFor id ((ResponseOp s id2 r er).1).writes = 0) := by
  cases hl : lookupEntry id2 s.incomings with
  | none =>
      simp only [ResponseOp, hl]
      exact ⟨hWF, hF, hP⟩
  | some entry =>
      simp only [ResponseOp, hl]
      have hkey : entry.req.id = id2 := hWF (id2, entry) (lookupEntry_mem _ _ _ hl)
      have hWF2 : TableWF (removeEntry id2 s.incomings) :=
        fun p hp => hWF p (mem_removeEntry _ _ _ hp)
      by_cases hid : id2 = id
      · subst hid
        have h0 : framesFor id2 s.writes = 0 := hP (by simp [hl])
        refine ⟨hWF2, ?_, ?_⟩
        · rw [framesFor_append, h0]
          simpa using framesFor_toList_le_one id2 (connResponse entry.req r er).1
        · intro hlk
          exact absurd (lookupEntry_removeEntry_self id2 s.incomings) hlk
      · have hz : framesFor id (connResponse entry.req r er).1.toList = 0 := by
          cases hc : (connResponse entry.req r er).1 with
          | none => simp [framesFor]
          | some w =>
              have hwid : w.id = id2 :=
                hkey ▸ connResponse_frame_id entry.req r er w (by simp [hc])
              have : (w.id == id) = false := by
                rw [hwid]
                exact beq_eq_false_iff_ne.mpr hid
              simp [framesFor, List.filter, this]
        refine ⟨hWF2, ?_, ?_⟩
        · rw [framesFor_append, hz]
          omega
        · intro hlk
          rw [lookupEntry_removeEntry_ne id id2 (fun hh => hid hh.symm)] at hlk
          rw [framesFor_append, hP hlk, hz]

theorem c2_at_most_one_aux (id : ID)
    (ops : List (ID × Option JValue × Option GoErr)) :
    ∀ s : IncomingState, TableWF s.incomings → framesFor id s.writes ≤ 1 →
      (lookupEntry id s.incomings ≠ none → framesFor id s.writes = 0) →
      framesFor id (runResponses s ops).writes ≤ 1 := by
  induction ops with
  | nil => exact fun s _ hF _ => hF
  | cons op rest ih =>
      intro s hWF hF hP
      obtain ⟨id2, r, er⟩ := op
      obtain ⟨h1, h2, h3⟩ := respInv_step id s hWF hF hP id2 r er
      exact ih _ h1 h2 h3

/-- C2: starting from a consistent engine state in which no Response
frame for an inbound call id has been written, (a) any sequence of
deferred Connection.Response calls writes at most one frame for that id;
(b) when the id is registered (as it is after a handler returned
ErrAsyncResponse) one Response call writes exactly one frame and removes
the id, and a second Response call on the same id is a no-op returning
nil and writing nothing; (c) the same no-op holds after the engine's own
reply path finished the call. -/
theorem c2_at_most_one_response (s0 : IncomingState) (id : ID)
    (hWF : TableWF s0.incomings) (h0 : framesFor id s0.writes = 0) :
    (∀ ops, framesFor id (runResponses s0 ops).writes ≤ 1) ∧
    (∀ result rerr entry, lookupEntry id s0.incomings = some entry →
      entry.req.IsCall = true →
      framesFor id ((ResponseOp s0 id result rerr).1).writes = 1 ∧
      (∀ result2 rerr2,
        ResponseOp (ResponseOp s0 id result rerr).1 id result2 rerr2 =
          ((ResponseOp s0 id result rerr).1, none))) ∧
    (∀ entry result rerr, lookupEntry id s0.incomings = some entry →
      entry.req.IsCall = true →
      ∀ result2 rerr2,
        ResponseOp (replyOp s0 entry result rerr) id result2 rerr2 =
          (replyOp s0 entry result rerr, none)) := by
  refine ⟨?_, ?_, ?_⟩
  · intro ops
    exact c2_at_most_one_aux id ops s0 hWF (by omega) (fun _ => h0)
  · intro result rerr entry hl hcall
    have hkey : entry.req.id = id := hWF (id, entry) (lookupEntry_mem _ _ _ hl)
    constructor
    · simp only [ResponseOp, hl]
      rw [framesFor_append, h0]
      have hw : (connResponse entry.req result rerr).1 =
          some (engNewResponse entry.req.id result
            (if result.isNone && rerr.isNone then
              some (wrapInternal (goQuote entry.req.method ++ " produced no response"))
             else rerr)) := by
        simp [connResponse, hcall]
      rw [hw]
      simp [framesFor, List.filter, engNewResponse, hkey]
    · intro result2 rerr2
      simp only [ResponseOp, hl]
      rw [show lookupEntry id (removeEntry id s0.incomings) = none from
        lookupEntry_removeEntry_self id s0.incomings]
  · intro entry result rerr hl hcall result2 rerr2
    have hkey : entry.req.id = id := hWF (id, entry) (lookupEntry_mem _ _ _ hl)
    simp only [replyOp, hcall, if_true, hkey]
    simp only [ResponseOp]
    rw [show lookupEntry id (removeEntry id s0.incomings) = none from
      lookupEntry_removeEntry_self id s0.incomings]

/-- C2 witness: a registered call with id 1; two deferred Response calls
write exactly one frame, and the second is a no-op. -/
theorem c2_at_most_one_response_witness :
    framesFor (NewNumberID 1) (runResponses
      ⟨[(NewNumberID 1, ⟨⟨NewNumberID 1, "m", none⟩, false, false⟩)], []⟩
      [(NewNumberID 1, none, none), (NewNumberID 1, none, none)]).writes ≤ 1 ∧
    framesFor (NewNumberID 1) ((ResponseOp
      ⟨[(NewNumberID 1, ⟨⟨NewNumberID 1, "m", none⟩, false, false⟩)], []⟩
      (NewNumberID 1) none none).1).writes = 1 ∧
    ResponseOp ((ResponseOp
        ⟨[(NewNumberID 1, ⟨⟨NewNumberID 1, "m", none⟩, false, false⟩)], []⟩
        (NewNumberID 1) none none).1) (NewNumberID 1) none none =
      ((ResponseOp
        ⟨[(NewNumberID 1, ⟨⟨NewNumberID 1, "m", none⟩, false, false⟩)], []⟩
        (NewNumberID 1) none none).1, none) := by
  have h := c2_at_most_one_response
    ⟨[(NewNumberID 1, ⟨⟨NewNumberID 1, "m", none⟩, false, false⟩)], []⟩
    (NewNumberID 1) (by decide) rfl
  exact ⟨h.1 [(NewNumberID 1, none, none), (NewNumberID 1, none, none)],
    (h.2.1 none none ⟨⟨NewNumberID 1, "m", none⟩, false, false⟩ rfl (by decide)).1,
    (h.2.1 none none ⟨⟨NewNumberID 1, "m", none⟩, false, false⟩ rfl (by decide)).2 none none⟩

theorem filter_singleton_nh (P : EngRequest → PreemptRes) (e : Entry) :
    List.filter (isNotHandledEntry P) [e] =
      (if isNotHandledEntry P e then [e] else []) := by
  simp only [List.filter]
  cases isNotHandledEntry P e <;> rfl

theorem mqProcess_inv (P : EngRequest → PreemptRes) (s : MQState) (e : Entry)
    (consumed : List Entry)
    (h : s.delivered ++ s.q = consumed.filter (isNotHandledEntry P)) :
    (mqProcess P s e).delivered ++ (mqProcess P s e).q =
      (consumed ++ [e]).filter (isNotHandledEntry P) ∧
    (mqProcess P s e).pendingIn = s.pendingIn := by
  cases hcl : errIs (preemptOutcome P e).2 ErrNotHandled with
  | true =>
      have hne : isNotHandledEntry P e = true := hcl
      have hs : mqProcess P s e = { s with q := s.q ++ [e] } := by
        simp [mqProcess, hcl]
      rw [hs]
      refine ⟨?_, rfl⟩
      show s.delivered ++ (s.q ++ [e]) = _
      rw [← List.append_assoc, h, List.filter_append, filter_singleton_nh, hne]
      simp
  | false =>
      have hne : isNotHandledEntry P e = false := hcl
      have hrest : s.delivered ++ s.q = (consumed ++ [e]).filter (isNotHandledEntry P) := by
        rw [List.filter_append, filter_singleton_nh, hne, h]
        simp
      cases hcl2 : errIs (preemptOutcome P e).2 ErrAsyncResponse with
      | true =>
          have hs : mqProcess P s e = s := by simp [mqProcess, hcl, hcl2]
          rw [hs]
          exact ⟨hrest, rfl⟩
      | false =>
          have hs : mqProcess P s e =
              { s with replied := s.replied ++ [(e, (preemptOutcome P e).1,
                  (preemptOutcome P e).2)] } := by
            simp [mqProcess, hcl, hcl2]
          rw [hs]
          exact ⟨hrest, rfl⟩

theorem mq_invariant (P : EngRequest → PreemptRes) (sched : List Bool) :
    ∀ (s : MQState) (consumed : List Entry),
      s.delivered ++ s.q = consumed.filter (isNotHandledEntry P) →
      ∃ consumed2,
        consumed ++ s.pendingIn = consumed2 ++ (runMQ P sched s).pendingIn ∧
        (runMQ P sched s).delivered ++ (runMQ P sched s).q =
          consumed2.filter (isNotHandledEntry P) := by
  induction sched with
  | nil => exact fun s consumed h => ⟨consumed, rfl, h⟩
  | cons pick rest ih =>
      intro s consumed h
      have key : ∃ c2, c2 ++ (mqStep P pick s).pendingIn = consumed ++ s.pendingIn ∧
          (mqStep P pick s).delivered ++ (mqStep P pick s).q =
            c2.filter (isNotHandledEntry P) := by
        rcases s with ⟨pin, qq, del, rep⟩
        cases pin with
        | nil =>
            cases qq with
            | nil => exact ⟨consumed, rfl, h⟩
            | cons d qrest =>
                refine ⟨consumed, rfl, ?_⟩
                show (del ++ [d]) ++ qrest = _
                rw [List.append_assoc]
                exact h
        | cons e tail =>
            cases qq with
            | nil =>
                obtain ⟨h1, h2⟩ := mqProcess_inv P ⟨tail, [], del, rep⟩ e consumed h
                refine ⟨consumed ++ [e], ?_, h1⟩
                show consumed ++ [e] ++ (mqProcess P ⟨tail, [], del, rep⟩ e).pendingIn = _
                rw [h2]
                simp
            | cons d qrest =>
                cases pick with
                | true =>
                    obtain ⟨h1, h2⟩ :=
                      mqProcess_inv P ⟨tail, d :: qrest, del, rep⟩ e consumed h
                    refine ⟨consumed ++ [e], ?_, h1⟩
                    show consumed ++ [e] ++
                        (mqProcess P ⟨tail, d :: qrest, del, rep⟩ e).pendingIn = _
                    rw [h2]
                    simp
                | false =>
                    refine ⟨consumed, rfl, ?_⟩
                    show (del ++ [d]) ++ qrest = _
                    rw [List.append_assoc]
                    exact h
      obtain ⟨c2, hc2, hinv2⟩ := key
      obtain ⟨cf, hf1, hf2⟩ := ih (mqStep P pick s) c2 hinv2
      refine ⟨cf, ?_, hf2⟩
      rw [← hc2]
      exact hf1

/-- C3 counterexample: the claim says every request for which the
Preempter returned ErrNotHandled reaches the Handler; but a request
whose handling context is cancelled (Connection.Cancel) after it was
enqueued and before delivery is answered with the cancellation error by
deliverMessages (src/conn.go:326-329) without the Handler ever seeing
it.  Concretely: a single request the Preempter declines, cancelled at
the delivery check — the drained run delivers it into the queue stage,
yet the Handler sees nothing. -/
theorem c3_cancelled_entry_counterexample :
    isNotHandledEntry (fun _ => ⟨none, some ErrNotHandled⟩)
      ⟨⟨NewNumberID 1, "m", none⟩, false, true⟩ = true ∧
    runMQ (fun _ => ⟨none, some ErrNotHandled⟩) [true, false]
        ⟨[⟨⟨NewNumberID 1, "m", none⟩, false, true⟩], [], [], []⟩ =
      ⟨[], [], [⟨⟨NewNumberID 1, "m", none⟩, false, true⟩], []⟩ ∧
    handlerSeen [⟨⟨NewNumberID 1, "m", none⟩, false, true⟩] = [] := by
  refine ⟨by decide, ?_, rfl⟩
  rfl

/-- C3 amended: in any drained run of the queue manager the entries sent
to the deliverer are exactly those for which the (uncancelled) Preempter
returned ErrNotHandled, in the order they were read — so an entry is
enqueued only after the Preempter was consulted and declined it — and
the Handler is invoked exactly on those of them whose handling context
was not cancelled before delivery. -/
theorem c3_queue_order_amended (P : EngRequest → PreemptRes) (input : List Entry)
    (sched : List Bool)
    (hdone1 : (runMQ P sched ⟨input, [], [], []⟩).pendingIn = [])
    (hdone2 : (runMQ P sched ⟨input, [], [], []⟩).q = []) :
    (runMQ P sched ⟨input, [], [], []⟩).delivered =
      input.filter (isNotHandledEntry P) ∧
    handlerSeen (runMQ P sched ⟨input, [], [], []⟩).delivered =
      (input.filter (isNotHandledEntry P)).filter (fun e => !e.cancelAtDeliver) := by
  obtain ⟨c2, hsplit, hinv⟩ := mq_invariant P sched ⟨input, [], [], []⟩ [] rfl
  rw [hdone1] at hsplit
  rw [hdone2] at hinv
  simp only [List.nil_append, List.append_nil] at hsplit hinv
  subst hsplit
  exact ⟨hinv, by rw [hinv]; rfl⟩

/-- C3 witness: two declined requests under an interleaved schedule are
delivered in read order and both reach the Handler. -/
theorem c3_queue_order_amended_witness :
    (runMQ (fun _ => ⟨none, some ErrNotHandled⟩) [true, false, true, false]
        ⟨[⟨⟨NewNumberID 1, "a", none⟩, false, false⟩,
          ⟨⟨NewNumberID 2, "b", none⟩, false, false⟩], [], [], []⟩).delivered =
      [⟨⟨NewNumberID 1, "a", none⟩, false, false⟩,
       ⟨⟨NewNumberID 2, "b", none⟩, false, false⟩] ∧
    handlerSeen (runMQ (fun _ => ⟨none, some ErrNotHandled⟩) [true, false, true, false]
        ⟨[⟨⟨NewNumberID 1, "a", none⟩, false, false⟩,
          ⟨⟨NewNumberID 2, "b", none⟩, false, false⟩], [], [], []⟩).delivered =
      [⟨⟨NewNumberID 1, "a", none⟩, false, false⟩,
       ⟨⟨NewNumberID 2, "b", none⟩, false, false⟩] := by
  have h := c3_queue_order_amended (fun _ => ⟨none, some ErrNotHandled⟩)
    [⟨⟨NewNumberID 1, "a", none⟩, false, false⟩,
     ⟨⟨NewNumberID 2, "b", none⟩, false, false⟩] [true, false, true, false] rfl rfl
  exact ⟨h.1.trans (by rfl), h.2.trans (by rfl)⟩

end JsonRpc2
